import Mathlib

/-!
Verification of the alpaquero storage provisioning subsystem.

This file shallowly embeds the storage data model, the `StorageManager`
(`alpaquero/smanager/manager.py`), the configuration parser of
`StorageInstaller` (`alpaquero/installers/storage.py`), and the
installation driver loop of `BaseInstallerController._install_config`
(`alpaquero/controllers/installer.py`), and proves properties of the
embedded definitions.

Modelling conventions:
- Python dicts are embedded as insertion-ordered association lists.
- Fallible operations return `Except String`; a raised Python exception is
  an `Except.error`.
- Python string comparison (used by `sorted` on mount-point strings) is
  lexicographic comparison of code points; it is embedded as `lexLe` below.
- Subprocess side effects are irrelevant to the claims about ordering and
  control flow; where a phase only shells out, the embedding records which
  operations are attempted and in which order.
-/

namespace Alpaquero

/-- Lexicographic less-or-equal on lists of characters, comparing Unicode
code points.  This is exactly how Python compares the mount-point strings
handed to `sorted` in `StorageManager.mount`/`unmount`/`write_fstab`. -/
def lexLe : List Char → List Char → Bool
  | [], _ => true
  | _ :: _, [] => false
  | a :: as, b :: bs =>
    if a.toNat < b.toNat then true
    else if b.toNat < a.toNat then false
    else lexLe as bs

/-- Lexicographic order on strings via their character data. -/
def strLe (a b : String) : Bool := lexLe a.data b.data

theorem lexLe_refl (l : List Char) : lexLe l l = true := by
  induction l with
  | nil => rfl
  | cons a as ih => simp [lexLe, ih]

theorem lexLe_total (a b : List Char) : lexLe a b = true ∨ lexLe b a = true := by
  induction a generalizing b with
  | nil => left; rfl
  | cons x xs ih =>
    cases b with
    | nil => right; rfl
    | cons y ys =>
      rcases Nat.lt_trichotomy x.toNat y.toNat with h | h | h
      · left; simp [lexLe, h]
      · have hle : ¬ x.toNat < y.toNat := by omega
        have hge : ¬ y.toNat < x.toNat := by omega
        rcases ih ys with h2 | h2
        · left; simp [lexLe, hle, hge, h2]
        · right; simp [lexLe, hle, hge, h2]
      · right; simp [lexLe, h]

theorem lexLe_trans {a b c : List Char} (hab : lexLe a b = true)
    (hbc : lexLe b c = true) : lexLe a c = true := by
  induction a generalizing b c with
  | nil => rfl
  | cons x xs ih =>
    cases b with
    | nil => simp [lexLe] at hab
    | cons y ys =>
      cases c with
      | nil => simp [lexLe] at hbc
      | cons z zs =>
        by_cases hxy : x.toNat < y.toNat
        · by_cases hyz : y.toNat < z.toNat
          · have : x.toNat < z.toNat := Nat.lt_trans hxy hyz
            simp [lexLe, this]
          · by_cases hzy : z.toNat < y.toNat
            · simp [lexLe, hyz, hzy] at hbc
            · have : y.toNat = z.toNat := by omega
              have : x.toNat < z.toNat := by omega
              simp [lexLe, this]
        · by_cases hyx : y.toNat < x.toNat
          · simp [lexLe, hxy, hyx] at hab
          · have hxyeq : x.toNat = y.toNat := by omega
            by_cases hyz : y.toNat < z.toNat
            · have : x.toNat < z.toNat := by omega
              simp [lexLe, this]
            · by_cases hzy : z.toNat < y.toNat
              · simp [lexLe, hyz, hzy] at hbc
              · have hxz : ¬ x.toNat < z.toNat := by omega
                have hzx : ¬ z.toNat < x.toNat := by omega
                simp [lexLe, hxy, hyx] at hab
                simp [lexLe, hyz, hzy] at hbc
                simp [lexLe, hxz, hzx]
                exact ih hab hbc

theorem lexLe_antisymm {a b : List Char} (hab : lexLe a b = true)
    (hba : lexLe b a = true) : a = b := by
  induction a generalizing b with
  | nil =>
    cases b with
    | nil => rfl
    | cons y ys => simp [lexLe] at hba
  | cons x xs ih =>
    cases b with
    | nil => simp [lexLe] at hab
    | cons y ys =>
      by_cases hxy : x.toNat < y.toNat
      · have : ¬ y.toNat < x.toNat := by omega
        simp [lexLe, hxy, this] at hba
      · by_cases hyx : y.toNat < x.toNat
        · simp [lexLe, hxy, hyx] at hab
        · have hxyeq : x.toNat = y.toNat := by omega
          have hx : x = y := by
            have := congrArg Char.ofNat hxyeq
            simpa [Char.ofNat_toNat] using this
          simp [lexLe, hxy, hyx] at hab hba
          rw [hx, ih hab hba]

theorem strLe_total (a b : String) : strLe a b = true ∨ strLe b a = true :=
  lexLe_total a.data b.data

theorem strLe_trans {a b c : String} (hab : strLe a b = true)
    (hbc : strLe b c = true) : strLe a c = true :=
  lexLe_trans hab hbc

theorem strLe_antisymm {a b : String} (hab : strLe a b = true)
    (hba : strLe b a = true) : a = b := by
  cases a; cases b
  exact congrArg String.mk (lexLe_antisymm hab hba)

/-! ## Filesystem and flag vocabulary

Modelled from the spec: `alpaquero/smanager/file_system.py` and the flag
enumeration of `storage_unit.py` are not part of the provided sources; the
spec describes them as closed enumerations of filesystem kinds (including
pseudo-kinds that mark layering inputs) and unit flags (ESP marker).  The
string forms follow the configuration vocabulary in the source comments of
`installers/storage.py` and the uses `str(unit.fs_type)` in `manager.py`. -/

inductive FSType where
  | ext4
  | xfs
  | vfat
  | swap
  | raid_member
  | crypto_partition
  | physical_volume
deriving DecidableEq, Repr

/-- String rendering of a filesystem type, as used for the fstab
`fs_vfstype` field (`str(unit.fs_type)`). -/
def FSType.toStr : FSType → String
  | .ext4 => "ext4"
  | .xfs => "xfs"
  | .vfat => "vfat"
  | .swap => "swap"
  | .raid_member => "raid_member"
  | .crypto_partition => "crypto_partition"
  | .physical_volume => "physical_volume"

inductive StorageUnitFlag where
  | esp
deriving DecidableEq, Repr

/-- The concrete kind of a storage unit: `Partition` (of a Disk or of a
RAID), `LogicalVolume`, or `CryptoVolume` (`smanager/storage_unit.py`). -/
inductive UnitKind where
  | partition
  | logicalVolume
  | cryptoVolume
deriving DecidableEq, Repr

/-- A storage unit (`smanager/storage_unit.py`, absent from the provided
sources; attributes modelled from the spec data model and from their uses
in `manager.py` and `installers/storage.py`).  `fsUuid` is queried from the
live block device in the source (`get_fs_uuid` in `smanager/utils.py`); it
is modelled as an attribute holding the value that query would return. -/
structure StorageUnit where
  id : String
  size : Nat
  fsType : Option FSType
  fsOpts : List String
  mountPoint : Option String
  flags : List StorageUnitFlag
  cryptoPassphrase : Option String
  fsUuid : String
  kind : UnitKind
deriving DecidableEq, Repr

/-- The device-specific payload of a storage device: a plain `Disk`, a
`RAID` (level, metadata version, member unit ids), a `VolumeGroup`
(physical-volume unit ids), or the `Cryptsetup` singleton. -/
inductive DeviceKind where
  | disk
  | raid (level : Nat) (metadata : String) (members : List String)
  | volumeGroup (physicalVolumes : List String)
  | cryptsetup
deriving DecidableEq, Repr

/-- A storage device: a container owning storage units (a Disk owns its
partitions, a RAID its partitions, a VolumeGroup its logical volumes, the
Cryptsetup singleton its crypto volumes). -/
structure StorageDevice where
  id : String
  kind : DeviceKind
  units : List StorageUnit
deriving DecidableEq, Repr

/-- The storage manager state: the `_devices` dict of
`StorageManager.__init__`, embedded as an insertion-ordered list (device
ids are kept unique by the factory operations). -/
structure StorageManager where
  devices : List StorageDevice
deriving DecidableEq, Repr

/-- `StorageManager.__init__`: the fresh registry already holds the
Cryptsetup singleton under the id `__cryptsetup__`. -/
def initManager : StorageManager :=
  ⟨[⟨"__cryptsetup__", .cryptsetup, []⟩]⟩

/-- `StorageManager.get_device_by_id`. -/
def StorageManager.getDeviceById (m : StorageManager) (id : String) :
    Option StorageDevice :=
  m.devices.find? (fun d => d.id == id)

/-- `StorageManager.storage_units`: all units of all devices. -/
def StorageManager.storageUnits (m : StorageManager) : List StorageUnit :=
  (m.devices.map StorageDevice.units).flatten

/-- `StorageManager.mount_points`: the `(mount_point, unit)` pairs of all
units whose mount point is set (Python truthiness: `None` and the empty
string are both skipped). -/
def StorageManager.mountPoints (m : StorageManager) :
    List (String × StorageUnit) :=
  m.storageUnits.filterMap (fun u =>
    match u.mountPoint with
    | some mp => if mp = "" then none else some (mp, u)
    | none => none)

/-- `StorageManager.get_unit_by_mount_point`: scan `mount_points`. -/
def StorageManager.getUnitByMountPoint (m : StorageManager) (mp : String) :
    Option StorageUnit :=
  (m.mountPoints.find? (fun p => p.1 == mp)).map (fun p => p.2)

/-- `StorageManager._get_unit_by_mount_point`: scan every unit of every
device comparing its raw mount point. -/
def StorageManager.getUnitByMountPointAll (m : StorageManager) (mp : String) :
    Option StorageUnit :=
  m.storageUnits.find? (fun u => u.mountPoint == some mp)

/-- `os.path.isabs` for POSIX paths: starts with a slash. -/
def isAbs (p : String) : Bool :=
  match p.data with
  | [] => false
  | c :: _ => c = '/'

/-- `os.path.join` for two POSIX components as used in `_parse_raids`:
an absolute second component discards the first. -/
def pathJoin (a b : String) : String :=
  if isAbs b then b
  else if a = "" then b
  else if a.data.getLast? = some '/' then a ++ b
  else a ++ "/" ++ b

/-- `StorageManager.check_can_mount_to`: the mount point must be an
absolute path and must not already be defined by any registered unit. -/
def StorageManager.checkCanMountTo (m : StorageManager) (mp : String) :
    Except String Unit :=
  if ¬ isAbs mp then .error (mp ++ ": must be an absolute path")
  else
    match m.getUnitByMountPointAll mp with
    | some _ => .error ("Mount point " ++ mp ++ " is already defined")
    | none => .ok ()

/-- `StorageManager.add_disk`: reject a duplicate device id, then register
a fresh `Disk` under `id`. -/
def StorageManager.addDisk (m : StorageManager) (id : String) :
    Except String StorageManager :=
  match m.getDeviceById id with
  | some d => .error (d.id ++ " already exists")
  | none => .ok ⟨m.devices ++ [⟨id, .disk, []⟩]⟩

/-- `StorageManager.add_vg`: reject a duplicate device id, then register a
fresh `VolumeGroup` under `id`. -/
def StorageManager.addVg (m : StorageManager) (id : String)
    (physicalVolumes : List String) : Except String StorageManager :=
  match m.getDeviceById id with
  | some d => .error (d.id ++ " already exists")
  | none => .ok ⟨m.devices ++ [⟨id, .volumeGroup physicalVolumes, []⟩]⟩

/-- `StorageManager.add_raid`: reject a duplicate device id, then register
a fresh `RAID` under `id`. -/
def StorageManager.addRaid (m : StorageManager) (id : String) (level : Nat)
    (members : List String) (metadata : String) :
    Except String StorageManager :=
  match m.getDeviceById id with
  | some d => .error (d.id ++ " already exists")
  | none => .ok ⟨m.devices ++ [⟨id, .raid level metadata members, []⟩]⟩

/-- Appending a unit to its owning device in the registry. -/
def updFn (did : String) (u : StorageUnit) (d : StorageDevice) :
    StorageDevice :=
  if d.id = did then { d with units := d.units ++ [u] } else d

/-- Modelled from the spec: `Disk.add_partition`, `RAID.add_partition` and
`VolumeGroup.add_lv` live in `smanager/disk.py`, `raid.py` and `lvm.py`,
which are absent from the provided sources.  Per the spec, registering a
unit validates its mount point (absolute, not colliding with an existing
one — the manager exposes `check_can_mount_to` exactly for this) and
appends the unit to its owning device. -/
def StorageManager.registerUnit (m : StorageManager) (did : String)
    (u : StorageUnit) : Except String StorageManager :=
  match u.mountPoint with
  | some mp =>
    match m.checkCanMountTo mp with
    | .error e => .error e
    | .ok _ => .ok ⟨m.devices.map (updFn did u)⟩
  | none => .ok ⟨m.devices.map (updFn did u)⟩

/-- Modelled from the spec: `Cryptsetup.add_volume`
(`smanager/cryptsetup.py` is absent from the provided sources).  Per the
spec, a crypto volume is created on an existing `Partition`; the call
fails if the referenced unit is not a Partition, and otherwise registers
the volume with the Cryptsetup singleton device. -/
def StorageManager.addVolume (m : StorageManager) (u : StorageUnit)
    (part : StorageUnit) : Except String StorageManager :=
  if part.kind ≠ .partition then
    .error (part.id ++ ": a crypto volume must be created on a partition")
  else
    m.registerUnit "__cryptsetup__" u

/-! ## Configuration parser (`alpaquero/installers/storage.py`)

The configuration subtree is embedded post-YAML: entries are already
structured records.  `Option` on the `crypto_volumes` / `raids` /
`volume_groups` sections models the `if yaml_key not in self._data` guards
of `_parse_crypto_volumes` / `_parse_raids` / `_parse_volume_groups`; the
`disks` section has no such guard (`read_list` yields an empty list when
the key is absent).  `RaidCfg.metadata` is `Option String`, modelling
whether the `metadata` key is present.  `fsUuid` is the UUID the formatted
unit will later report (see `StorageUnit.fsUuid`). -/

structure PartCfg where
  id : String
  size : Nat
  fsType : Option FSType
  fsOpts : List String
  mountPoint : Option String
  flags : List StorageUnitFlag
  cryptoPassphrase : Option String
  fsUuid : String
deriving DecidableEq, Repr

structure DiskCfg where
  id : String
  partitions : List PartCfg
deriving DecidableEq, Repr

structure CryptoCfg where
  id : String
  onPartition : String
  fsType : Option FSType
  fsOpts : List String
  mountPoint : Option String
  fsUuid : String
deriving DecidableEq, Repr

structure RaidCfg where
  id : String
  level : Nat
  metadata : Option String
  members : List String
  partitions : List PartCfg
deriving DecidableEq, Repr

structure VGCfg where
  id : String
  physicalVolumes : List String
  logicalVolumes : List PartCfg
deriving DecidableEq, Repr

structure StorageCfg where
  disks : List DiskCfg
  cryptoVolumes : Option (List CryptoCfg)
  raids : Option (List RaidCfg)
  volumeGroups : Option (List VGCfg)
deriving DecidableEq, Repr

/-- The parsing state of `StorageInstaller.__init__`: the `_units` dict
(kept, per the source comment, "to maintain uniqueness among unit ids")
and the manager being populated. -/
structure ParseState where
  units : List (String × StorageUnit)
  mgr : StorageManager
deriving DecidableEq, Repr

def initParseState : ParseState := ⟨[], initManager⟩

/-- `StorageInstaller._add_unit`: reject a duplicate unit id, then record
the unit in the `_units` dict. -/
def addUnitDict (st : ParseState) (u : StorageUnit) :
    Except String ParseState :=
  if (st.units.lookup u.id).isSome then
    .error ("Unit with id " ++ u.id ++ " is already defined")
  else
    .ok { st with units := st.units ++ [(u.id, u)] }

/-- `StorageInstaller._unit_by_id` with `fail=True`: resolve a unit id in
the `_units` dict or raise. -/
def unitById (st : ParseState) (id : String) : Except String StorageUnit :=
  match st.units.lookup id with
  | some u => .ok u
  | none => .error ("Unknown unit id " ++ id)

/-- Build the `StorageUnit` for one partition / logical-volume entry
(`UnitParams.from_dict` plus the `add_partition`/`add_lv` call site). -/
def mkPartUnit (k : UnitKind) (c : PartCfg) : StorageUnit :=
  ⟨c.id, c.size, c.fsType, c.fsOpts, c.mountPoint, c.flags,
   c.cryptoPassphrase, c.fsUuid, k⟩

/-- The partition loop shared by `_parse_disks` (against a Disk),
`_parse_raids` (against a RAID) and `_parse_volume_groups` (against a
VolumeGroup, producing logical volumes): each entry is registered with its
owning device, then recorded in the `_units` dict. -/
def parseParts (did : String) (k : UnitKind) :
    List PartCfg → ParseState → Except String ParseState
  | [], st => .ok st
  | c :: cs, st => do
    let mgr2 ← st.mgr.registerUnit did (mkPartUnit k c)
    let st2 ← addUnitDict { st with mgr := mgr2 } (mkPartUnit k c)
    parseParts did k cs st2

/-- `StorageInstaller._parse_disks`: register each disk, then its
partitions in document order. -/
def parseDisks : List DiskCfg → ParseState → Except String ParseState
  | [], st => .ok st
  | d :: ds, st => do
    let mgr2 ← st.mgr.addDisk d.id
    let st2 ← parseParts d.id .partition d.partitions { st with mgr := mgr2 }
    parseDisks ds st2

/-- Build the `StorageUnit` for one crypto-volume entry
(`Cryptsetup.add_volume` call site in `_parse_crypto_volumes`). -/
def mkCryptoUnit (c : CryptoCfg) : StorageUnit :=
  ⟨c.id, 0, c.fsType, c.fsOpts, c.mountPoint, [], none, c.fsUuid,
   .cryptoVolume⟩

/-- One entry of `StorageInstaller._parse_crypto_volumes`: resolve the
`on_partition` reference in the `_units` dict (raising on an unknown id),
create the volume on it, and record the volume. -/
def parseCryptoEntry (c : CryptoCfg) (st : ParseState) :
    Except String ParseState := do
  let part ← unitById st c.onPartition
  let mgr2 ← st.mgr.addVolume (mkCryptoUnit c) part
  addUnitDict { st with mgr := mgr2 } (mkCryptoUnit c)

def parseCryptoList : List CryptoCfg → ParseState → Except String ParseState
  | [], st => .ok st
  | c :: cs, st => do
    let st2 ← parseCryptoEntry c st
    parseCryptoList cs st2

/-- The member-resolution loop of `_parse_raids` (and the
physical-volume loop of `_parse_volume_groups`): every referenced id must
resolve in the `_units` dict; no type check is performed (the source casts
without checking). -/
def resolveMembers : List String → ParseState → Except String Unit
  | [], _ => .ok ()
  | mId :: ms, st => do
    let _ ← unitById st mId
    resolveMembers ms st

/-- One entry of `StorageInstaller._parse_raids`: the metadata version
defaults to `1.2` when falsy; members are resolved; the RAID is registered
under `os.path.join('/dev/md', raid_id)`; then its own partitions are
parsed like disk partitions.

Modelled from the spec: `read_key_or_fail` (`installers/utils.py`, absent
from the provided sources) yields an empty string for the optional
`metadata` key when it is absent, which the source then replaces by the
default `1.2`. -/
def parseRaidEntry (r : RaidCfg) (st : ParseState) :
    Except String ParseState := do
  let _ ← resolveMembers r.members st
  let mgr2 ← st.mgr.addRaid (pathJoin "/dev/md" r.id) r.level r.members
    (if r.metadata.getD "" = "" then "1.2" else r.metadata.getD "")
  parseParts (pathJoin "/dev/md" r.id) .partition r.partitions
    { st with mgr := mgr2 }

def parseRaidList : List RaidCfg → ParseState → Except String ParseState
  | [], st => .ok st
  | r :: rs, st => do
    let st2 ← parseRaidEntry r st
    parseRaidList rs st2

/-- One entry of `StorageInstaller._parse_volume_groups`: resolve the
physical volumes, register the VolumeGroup, then parse its logical
volumes. -/
def parseVGEntry (v : VGCfg) (st : ParseState) :
    Except String ParseState := do
  let _ ← resolveMembers v.physicalVolumes st
  let mgr2 ← st.mgr.addVg v.id v.physicalVolumes
  parseParts v.id .logicalVolume v.logicalVolumes { st with mgr := mgr2 }

def parseVGList : List VGCfg → ParseState → Except String ParseState
  | [], st => .ok st
  | v :: vs, st => do
    let st2 ← parseVGEntry v st
    parseVGList vs st2

/-- `StorageInstaller._validate`: a `/` mount point must exist. -/
def validateState (st : ParseState) : Except String ParseState :=
  match st.mgr.getUnitByMountPoint "/" with
  | none => .error "No / mount point defined"
  | some _ => .ok st

/-- The `if yaml_key not in self._data: return False` guard of
`_parse_crypto_volumes`: an absent section parses as a no-op. -/
def parseCryptoSection (o : Option (List CryptoCfg)) (st : ParseState) :
    Except String ParseState :=
  match o with
  | none => .ok st
  | some cs => parseCryptoList cs st

/-- The guard of `_parse_raids`. -/
def parseRaidSection (o : Option (List RaidCfg)) (st : ParseState) :
    Except String ParseState :=
  match o with
  | none => .ok st
  | some rs => parseRaidList rs st

/-- The guard of `_parse_volume_groups`. -/
def parseVGSection (o : Option (List VGCfg)) (st : ParseState) :
    Except String ParseState :=
  match o with
  | none => .ok st
  | some vs => parseVGList vs st

/-- The parsing part of `StorageInstaller.__init__`: disks, then crypto
volumes, then RAIDs, then volume groups, then global validation.  This is
pure graph construction — no destructive device operation is involved
(those happen only in `apply()`). -/
def storageInstallerParse (cfg : StorageCfg) : Except String ParseState := do
  let st1 ← parseDisks cfg.disks initParseState
  let st2 ← parseCryptoSection cfg.cryptoVolumes st1
  let st3 ← parseRaidSection cfg.raids st2
  let st4 ← parseVGSection cfg.volumeGroups st3
  validateState st4

/-! ## Mount / unmount ordering (`StorageManager.mount` / `unmount`) -/

/-- The comparison used by `sorted(self.mount_points, key=lambda x: x[0])`:
pairs ordered by mount-point string. -/
def mpLe (a b : String × StorageUnit) : Prop := strLe a.1 b.1 = true

instance : DecidableRel mpLe := fun _ _ => instDecidableEqBool _ _

instance : IsTotal (String × StorageUnit) mpLe :=
  ⟨fun a b => strLe_total a.1 b.1⟩

instance : IsTrans (String × StorageUnit) mpLe :=
  ⟨fun _ _ _ hab hbc => strLe_trans hab hbc⟩

/-- The comparison for `sorted(..., reverse=True)` in `unmount`. -/
def mpGe (a b : String × StorageUnit) : Prop := strLe b.1 a.1 = true

instance : DecidableRel mpGe := fun _ _ => instDecidableEqBool _ _

instance : IsTotal (String × StorageUnit) mpGe :=
  ⟨fun a b => (strLe_total b.1 a.1)⟩

instance : IsTrans (String × StorageUnit) mpGe :=
  ⟨fun _ _ _ hab hbc => strLe_trans hbc hab⟩

/-- `StorageManager.mount`: the `(mount_point, unit)` pairs are processed
in ascending lexical order of the mount-point string.  (Python `sorted` is
a stable sort; `List.insertionSort` is the stable sort of the same
comparison, so the two agree on every input.) -/
def mountSeq (m : StorageManager) : List (String × StorageUnit) :=
  List.insertionSort mpLe m.mountPoints

/-- `StorageManager.unmount`: the mount points are processed in descending
lexical order (`sorted(..., reverse=True)`), and only the mount-point
string of each pair is used (`umount mnt_dir`). -/
def unmountSeq (m : StorageManager) : List String :=
  (List.insertionSort mpGe m.mountPoints).map (fun p => p.1)

/-! ## fstab rendering (`StorageManager.write_fstab`) -/

/-- `','.join(unit.fs_opts)`. -/
def joinComma : List String → String
  | [] => ""
  | [x] => x
  | x :: xs => x ++ "," ++ joinComma xs

/-- The body of the `write_fstab` loop: one rendered fstab line. -/
def fstabLine (u : StorageUnit) : String :=
  let fsSpec := u.fsUuid
  let fsFile := if u.fsType = some .swap then "none"
    else match u.mountPoint with
      | some mp => mp
      | none => "None"
  let fsVfstype := match u.fsType with
    | some t => t.toStr
    | none => "None"
  let fsMntopts := if u.fsType = some .swap ∨ u.fsOpts = [] then "defaults"
    else joinComma u.fsOpts
  let fsPassno : Nat := if u.fsType = some .swap then 0
    else if u.mountPoint = some "/" then 1
    else 2
  "UUID=" ++ fsSpec ++ " " ++ fsFile ++ " " ++ fsVfstype ++ " " ++
    fsMntopts ++ " 0 " ++ toString fsPassno ++ "\n"

/-- `StorageManager.write_fstab`: one line per mounted unit in ascending
mount-point order, then one line per swap-typed unit. -/
def writeFstabLines (m : StorageManager) : List String :=
  let swapUnits := m.storageUnits.filter (fun u => u.fsType = some .swap)
  let mountUnits := (mountSeq m).map (fun p => p.2)
  (mountUnits ++ swapUnits).map fstabLine

/-! ## The installation driver loop
(`BaseInstallerController._install_config`, lines 121-137)

The driver holds a list of installers (the storage installer is the first,
index 0), calls `apply()` on each in order, then `post_apply()` on each in
order, then `cleanup()` on each in reversed order.  There is no
`try`/`finally`: an exception raised by any `apply()` or `post_apply()`
propagates out of `_install_config` (re-raised as `InstallerException` by
`_run`) and the remaining loop iterations — including every `cleanup()`
call — are not executed.  The embedding records which lifecycle calls are
executed; an installer behaviour says whether its `apply`/`post_apply`
raises.  (`cleanup` is a no-op for every installer except the storage
installer, whose internals are modelled separately below.) -/

inductive PhaseEv where
  | applyEv (i : Nat)
  | postApplyEv (i : Nat)
  | cleanupEv (i : Nat)
deriving DecidableEq, Repr

structure InstBehavior where
  applyOk : Bool
  postApplyOk : Bool
deriving DecidableEq, Repr

/-- The `for i in installers: i.apply()` loop: each call is executed in
order until one raises; the raising call is the last executed. -/
def runApplies : Nat → List InstBehavior → List PhaseEv × Bool
  | _, [] => ([], true)
  | i, b :: bs =>
    if b.applyOk then
      let r := runApplies (i + 1) bs
      (.applyEv i :: r.1, r.2)
    else ([.applyEv i], false)

/-- The `for i in installers: i.post_apply()` loop. -/
def runPostApplies : Nat → List InstBehavior → List PhaseEv × Bool
  | _, [] => ([], true)
  | i, b :: bs =>
    if b.postApplyOk then
      let r := runPostApplies (i + 1) bs
      (.postApplyEv i :: r.1, r.2)
    else ([.postApplyEv i], false)

/-- `BaseInstallerController._install_config` after the installers are
constructed: applies, then post-applies, then — only if nothing raised —
cleanups in reversed installer order.  Returns the executed lifecycle
calls and whether the run completed. -/
def installConfigRun (bs : List InstBehavior) : List PhaseEv × Bool :=
  let a := runApplies 0 bs
  if ¬ a.2 then (a.1, false)
  else
    let p := runPostApplies 0 bs
    if ¬ p.2 then (a.1 ++ p.1, false)
    else (a.1 ++ p.1 ++ ((List.range bs.length).reverse.map .cleanupEv), true)

/-! ## Storage teardown (`StorageInstaller.cleanup`)

`cleanup()` unmounts the bind mounts (`dev`, `proc`, `sys`), then calls
`StorageManager.unmount()`, then `deactivate_block_devices()` (deactivate
every VolumeGroup, stop every RAID, close the crypto volumes).  Every one
of these steps is a `run_cmd` invocation — none is wrapped in
`try`/`except` and none passes `ignore_status=True` (contrast
`StorageInstaller.apply`, which passes `ignore_status=True` for its
best-effort `modprobe` calls).

Modelled from the spec: `run_cmd` (`alpaquero/common/utils.py`, absent
from the provided sources) treats a non-zero exit status as a hard failure
and raises — per the spec, a subprocess exit status is the sole
success/failure signal and a failing call is "a hard, immediate failure".
A teardown run is therefore driven by a failure assignment `fail`: steps
execute in order and the first failing step raises, ending the run. -/

inductive TStep where
  | bindUmount (m : String)
  | umountMp (mp : String)
  | deactVg (id : String)
  | stopRaid (id : String)
  | closeVolumes
deriving DecidableEq, Repr

def vgIds (m : StorageManager) : List String :=
  (m.devices.filter (fun d =>
    match d.kind with
    | .volumeGroup _ => true
    | _ => false)).map (fun d => d.id)

def raidIds (m : StorageManager) : List String :=
  (m.devices.filter (fun d =>
    match d.kind with
    | .raid _ _ _ => true
    | _ => false)).map (fun d => d.id)

/-- The teardown steps of `StorageInstaller.cleanup`, in source order:
bind-mount umounts, `unmount()` in descending mount-point order,
then `deactivate_block_devices()`. -/
def cleanupSteps (m : StorageManager) : List TStep :=
  (["dev", "proc", "sys"].map .bindUmount) ++
    (unmountSeq m).map .umountMp ++
    (vgIds m).map .deactVg ++
    (raidIds m).map .stopRaid ++
    [.closeVolumes]

/-- Execute teardown steps in order; the first step whose command fails
raises, so it is the last step executed and the run reports failure. -/
def runSteps (fail : TStep → Bool) : List TStep → List TStep × Bool
  | [] => ([], true)
  | s :: ss =>
    if fail s then ([s], false)
    else
      let r := runSteps fail ss
      (s :: r.1, r.2)

/-- `StorageInstaller.cleanup` under a failure assignment. -/
def storageCleanupRun (m : StorageManager) (fail : TStep → Bool) :
    List TStep × Bool :=
  runSteps fail (cleanupSteps m)

/-! ## Helper predicates -/

def isErr {α : Type} (e : Except String α) : Bool :=
  match e with
  | .error _ => true
  | .ok _ => false

/-- Strict mount-point precedence: smaller and different. -/
def mpLt (a b : String × StorageUnit) : Prop :=
  strLe a.1 b.1 = true ∧ a.1 ≠ b.1

theorem mpLt_antisymm : ∀ {a b : String × StorageUnit},
    mpLt a b → mpLt b a → a = b := by
  intro a b hab hba
  exact absurd (strLe_antisymm hab.1 hba.1) hab.2

/-- Pairwise strict precedence for the ascending sort, from sortedness
plus distinct mount points. -/
theorem sorted_strict_of_sorted_nodup {l : List (String × StorageUnit)}
    (hs : List.Pairwise mpLe l) (hn : (l.map (fun p => p.1)).Nodup) :
    List.Pairwise mpLt l := by
  have hne : List.Pairwise (fun a b : String × StorageUnit => a.1 ≠ b.1) l :=
    List.pairwise_map.mp hn
  exact (hs.and hne).imp (fun h => ⟨h.1, h.2⟩)

/-! ## Claim C3: mount ordering and unmount ordering -/

/-- **C3.** For every manager state whose declared mount points are
pairwise distinct, `mount()` processes the `(mount_point, unit)` pairs in
ascending lexical order of the mount-point string (the processed sequence
is sorted ascending and is a permutation of the declared pairs), and
`unmount()` processes the same mount points in the exact reverse of the
mount order. -/
theorem mount_ascending_unmount_exact_reverse (m : StorageManager)
    (h : ((m.mountPoints).map (fun p => p.1)).Nodup) :
    List.Sorted mpLe (mountSeq m) ∧
    (mountSeq m).Perm m.mountPoints ∧
    unmountSeq m = ((mountSeq m).map (fun p => p.1)).reverse := by
  have hsortA : List.Sorted mpLe (mountSeq m) :=
    List.sorted_insertionSort mpLe m.mountPoints
  have hpermA : (mountSeq m).Perm m.mountPoints :=
    List.perm_insertionSort mpLe m.mountPoints
  refine ⟨hsortA, hpermA, ?_⟩
  have hsortB : List.Sorted mpGe (List.insertionSort mpGe m.mountPoints) :=
    List.sorted_insertionSort mpGe m.mountPoints
  have hpermB : (List.insertionSort mpGe m.mountPoints).Perm m.mountPoints :=
    List.perm_insertionSort mpGe m.mountPoints
  have hnA : ((mountSeq m).map (fun p => p.1)).Nodup :=
    ((hpermA.map (fun p => p.1)).nodup_iff).mpr h
  have hnB : ((List.insertionSort mpGe m.mountPoints).map (fun p => p.1)).Nodup :=
    ((hpermB.map (fun p => p.1)).nodup_iff).mpr h
  have hstrictA : List.Pairwise mpLt (mountSeq m) :=
    sorted_strict_of_sorted_nodup hsortA hnA
  have hstrictBrev :
      List.Pairwise mpLt (List.insertionSort mpGe m.mountPoints).reverse := by
    have hne : List.Pairwise (fun a b : String × StorageUnit => a.1 ≠ b.1)
        (List.insertionSort mpGe m.mountPoints) := List.pairwise_map.mp hnB
    have hcomb := (hsortB.and hne).imp
      (fun {a b} h => (⟨h.1, fun he => h.2 he.symm⟩ : mpLt b a))
    exact List.pairwise_reverse.mpr hcomb
  have hperm : (mountSeq m).Perm
      (List.insertionSort mpGe m.mountPoints).reverse := by
    refine hpermA.trans (hpermB.symm.trans ?_)
    exact (List.reverse_perm _).symm
  haveI : IsAntisymm (String × StorageUnit) mpLt :=
    ⟨fun _ _ hab hba => mpLt_antisymm hab hba⟩
  have heq : mountSeq m = (List.insertionSort mpGe m.mountPoints).reverse :=
    List.eq_of_perm_of_sorted hperm hstrictA hstrictBrev
  have : List.insertionSort mpGe m.mountPoints = (mountSeq m).reverse := by
    rw [heq, List.reverse_reverse]
  unfold unmountSeq
  rw [this, List.map_reverse]

/-- A concrete manager with the mount points of the spec example. -/
def mgrC3 : StorageManager :=
  ⟨[⟨"/dev/vda", .disk,
     [⟨"home", 0, some .ext4, [], some "/home", [], none, "U1", .partition⟩,
      ⟨"root", 0, some .ext4, [], some "/", [], none, "U2", .partition⟩,
      ⟨"efi", 0, some .vfat, [], some "/boot/efi", [.esp], none, "U3", .partition⟩,
      ⟨"boot", 0, some .ext4, [], some "/boot", [], none, "U4", .partition⟩]⟩]⟩

/-- Witness for C3: on the spec example the mount order is `/`, `/boot`,
`/boot/efi`, `/home` and the unmount order is its exact reverse. -/
theorem mount_ascending_unmount_exact_reverse_witness :
    ((mgrC3.mountPoints).map (fun p => p.1)).Nodup ∧
    (mountSeq mgrC3).map (fun p => p.1) = ["/", "/boot", "/boot/efi", "/home"] ∧
    unmountSeq mgrC3 = ((mountSeq mgrC3).map (fun p => p.1)).reverse :=
  ⟨by decide, by decide,
   (mount_ascending_unmount_exact_reverse mgrC3 (by decide)).2.2⟩

/-! ## Claim C7: fstab rendering -/

/-- **C7.** `write_fstab` emits one line per mounted unit in ascending
mount-point order followed by one line per swap-typed unit, and each line
is `UUID=<fs_uuid> <fs_file> <fs_vfstype> <fs_mntopts> 0 <fs_passno>`
where `fs_file` is the mount point (`none` for swap), `fs_mntopts` the
comma-joined options (`defaults` for swap or when there are none), and
`fs_passno` is `0` for swap, `1` for the unit mounted at `/` and `2`
otherwise. -/
theorem write_fstab_rendering (m : StorageManager) :
    writeFstabLines m =
      ((mountSeq m).map (fun p => p.2) ++
        m.storageUnits.filter (fun u => u.fsType = some .swap)).map fstabLine ∧
    (∀ u : StorageUnit, u.fsType = some .swap →
      fstabLine u = "UUID=" ++ u.fsUuid ++ " " ++ "none" ++ " " ++ "swap" ++
        " " ++ "defaults" ++ " 0 " ++ "0" ++ "\n") ∧
    (∀ (u : StorageUnit) (mp : String), u.fsType ≠ some .swap →
      u.mountPoint = some mp →
      fstabLine u = "UUID=" ++ u.fsUuid ++ " " ++ mp ++ " " ++
        (match u.fsType with | some t => t.toStr | none => "None") ++ " " ++
        (if u.fsOpts = [] then "defaults" else joinComma u.fsOpts) ++ " 0 " ++
        (if mp = "/" then "1" else "2") ++ "\n") := by
  refine ⟨rfl, ?_, ?_⟩
  · intro u h
    obtain ⟨uid, sz, ft, opts, mp, fl, cp, uuid, k⟩ := u
    simp only at h
    subst h
    simp [fstabLine]
    rfl
  · intro u mp hswap hmp
    obtain ⟨uid, sz, ft, opts, ump, fl, cp, uuid, k⟩ := u
    simp only at hswap hmp
    subst hmp
    by_cases hopts : opts = [] <;> by_cases hroot : mp = "/" <;>
      simp [fstabLine, hswap, hopts, hroot] <;> rfl

/-- Witness for C7: a unit with mount point `/`, ext4, no options and UUID
`ABCD` renders exactly `UUID=ABCD / ext4 defaults 0 1`, and a swap unit
renders `none` and pass number `0`. -/
theorem write_fstab_rendering_witness :
    fstabLine ⟨"root", 0, some .ext4, [], some "/", [], none, "ABCD",
      .partition⟩ = "UUID=ABCD / ext4 defaults 0 1\n" ∧
    fstabLine ⟨"swap0", 0, some .swap, [], none, [], none, "EF01",
      .partition⟩ = "UUID=EF01 none swap defaults 0 0\n" := by
  constructor
  · have h := (write_fstab_rendering ⟨[]⟩).2.2
      ⟨"root", 0, some .ext4, [], some "/", [], none, "ABCD", .partition⟩
      "/" (by decide) rfl
    rw [h]
    decide
  · have h := (write_fstab_rendering ⟨[]⟩).2.1
      ⟨"swap0", 0, some .swap, [], none, [], none, "EF01", .partition⟩ rfl
    rw [h]
    decide

/-! ## Claim C1: is cleanup executed after a failed apply? -/

/-- Installer behaviours: the storage installer (index 0) succeeds, the
second installer raises during `apply()`. -/
def bsC1 : List InstBehavior := [⟨true, true⟩, ⟨false, true⟩]

/-- **C1 counterexample.** With the storage installer at index 0 and an
installer whose `apply()` raises at index 1, `_install_config` executes
only the two `apply()` calls and never reaches any `cleanup()` — in
particular the storage installer's `cleanup()` is not executed, because
the driver loop has no `try`/`finally` around the apply/post-apply loops.
This refutes the claim that `cleanup()` runs regardless of an execution
error raised during an installer's `apply()`. -/
theorem cleanup_not_executed_on_apply_error :
    installConfigRun bsC1 = ([.applyEv 0, .applyEv 1], false) ∧
    PhaseEv.cleanupEv 0 ∉ (installConfigRun bsC1).1 := by decide

theorem runApplies_no_cleanup (bs : List InstBehavior) (j i : Nat) :
    PhaseEv.cleanupEv i ∉ (runApplies j bs).1 := by
  induction bs generalizing j with
  | nil => simp [runApplies]
  | cons b bs ih =>
    by_cases h : b.applyOk
    · simp only [runApplies, if_pos h, List.mem_cons]
      rintro (hc | hc)
      · exact PhaseEv.noConfusion hc
      · exact ih (j + 1) hc
    · simp only [runApplies, if_neg h, List.mem_cons]
      rintro (hc | hc)
      · exact PhaseEv.noConfusion hc
      · simp at hc

theorem runPostApplies_no_cleanup (bs : List InstBehavior) (j i : Nat) :
    PhaseEv.cleanupEv i ∉ (runPostApplies j bs).1 := by
  induction bs generalizing j with
  | nil => simp [runPostApplies]
  | cons b bs ih =>
    by_cases h : b.postApplyOk
    · simp only [runPostApplies, if_pos h, List.mem_cons]
      rintro (hc | hc)
      · exact PhaseEv.noConfusion hc
      · exact ih (j + 1) hc
    · simp only [runPostApplies, if_neg h, List.mem_cons]
      rintro (hc | hc)
      · exact PhaseEv.noConfusion hc
      · simp at hc

theorem runApplies_ok_iff (bs : List InstBehavior) (j : Nat) :
    (runApplies j bs).2 = true ↔ ∀ b ∈ bs, b.applyOk = true := by
  induction bs generalizing j with
  | nil => simp [runApplies]
  | cons b bs ih =>
    by_cases h : b.applyOk
    · simp [runApplies, if_pos h, h, ih (j + 1)]
    · simp [runApplies, if_neg h, h]

theorem runPostApplies_ok_iff (bs : List InstBehavior) (j : Nat) :
    (runPostApplies j bs).2 = true ↔ ∀ b ∈ bs, b.postApplyOk = true := by
  induction bs generalizing j with
  | nil => simp [runPostApplies]
  | cons b bs ih =>
    by_cases h : b.postApplyOk
    · simp [runPostApplies, if_pos h, h, ih (j + 1)]
    · simp [runPostApplies, if_neg h, h]

/-- **C1 amended.** In `_install_config`, the `cleanup()` of any installer
(in particular the storage installer) is executed exactly when every
installer's `apply()` and `post_apply()` completed successfully; an
execution error raised during any `apply()` or `post_apply()` prevents
every `cleanup()` from running. -/
theorem cleanup_executed_iff_all_phases_ok (bs : List InstBehavior)
    (i : Nat) (hi : i < bs.length) :
    PhaseEv.cleanupEv i ∈ (installConfigRun bs).1 ↔
      ∀ b ∈ bs, b.applyOk = true ∧ b.postApplyOk = true := by
  unfold installConfigRun
  by_cases ha : (runApplies 0 bs).2
  · by_cases hp : (runPostApplies 0 bs).2
    · simp only [ha, hp]
      norm_num
      exact iff_of_true (Or.inr (Or.inr hi))
        (fun b hb => ⟨(runApplies_ok_iff bs 0).mp ha b hb,
                      (runPostApplies_ok_iff bs 0).mp hp b hb⟩)
    · simp only [ha, hp]
      norm_num
      refine iff_of_false ?_ ?_
      · rintro (hc | hc)
        · exact runApplies_no_cleanup bs 0 i hc
        · exact runPostApplies_no_cleanup bs 0 i hc
      · intro hall
        exact hp ((runPostApplies_ok_iff bs 0).mpr
          (fun b hb => (hall b hb).2))
  · simp only [ha]
    norm_num
    refine iff_of_false (fun hc => runApplies_no_cleanup bs 0 i hc) ?_
    intro hall
    exact ha ((runApplies_ok_iff bs 0).mpr (fun b hb => (hall b hb).1))

/-- Witness for the amended C1: with two well-behaved installers, the
storage installer's cleanup is executed. -/
theorem cleanup_executed_iff_all_phases_ok_witness :
    (0 < ([⟨true, true⟩, ⟨true, true⟩] : List InstBehavior).length) ∧
    PhaseEv.cleanupEv 0 ∈
      (installConfigRun [⟨true, true⟩, ⟨true, true⟩]).1 :=
  ⟨by decide,
   (cleanup_executed_iff_all_phases_ok [⟨true, true⟩, ⟨true, true⟩] 0
     (by decide)).mpr (by decide)⟩

/-! ## Claim C2: teardown failures during cleanup -/

/-- A concrete manager with one mounted unit and one volume group. -/
def mgrC2 : StorageManager :=
  ⟨[⟨"/dev/vda", .disk,
     [⟨"root", 0, some .ext4, [], some "/", [], none, "U1", .partition⟩]⟩,
    ⟨"vg0", .volumeGroup ["pv1"], []⟩]⟩

def failC2 : TStep → Bool := fun s => s == .bindUmount "proc"

/-- **C2 counterexample.** If the `proc` bind-mount umount fails, the
exception propagates out of `cleanup()` (there is no `try`/`except` and no
`ignore_status=True` around the teardown commands): the run stops with the
failing step, and the layered-filesystem unmount, the volume-group
deactivation and the crypto-volume close are never attempted.  This
refutes the claim that a failing teardown step is logged rather than
raised and that the remaining teardown steps are still attempted. -/
theorem cleanup_teardown_failure_raises :
    (storageCleanupRun mgrC2 failC2).2 = false ∧
    (storageCleanupRun mgrC2 failC2).1 =
      [.bindUmount "dev", .bindUmount "proc"] ∧
    TStep.umountMp "/" ∈ cleanupSteps mgrC2 ∧
    TStep.umountMp "/" ∉ (storageCleanupRun mgrC2 failC2).1 ∧
    TStep.deactVg "vg0" ∈ cleanupSteps mgrC2 ∧
    TStep.deactVg "vg0" ∉ (storageCleanupRun mgrC2 failC2).1 ∧
    TStep.closeVolumes ∉ (storageCleanupRun mgrC2 failC2).1 := by decide

theorem runSteps_characterization (fail : TStep → Bool) (l : List TStep) :
    runSteps fail l =
      (l.takeWhile (fun s => !fail s) ++
        (l.dropWhile (fun s => !fail s)).take 1,
       l.all (fun s => !fail s)) := by
  induction l with
  | nil => rfl
  | cons s ss ih =>
    by_cases h : fail s
    · simp [runSteps, h, List.takeWhile_cons, List.dropWhile_cons]
    · simp [runSteps, h, List.takeWhile_cons, List.dropWhile_cons, ih]

/-- **C2 amended.** `StorageInstaller.cleanup()` attempts its teardown
steps strictly in order and stops at the first failing step, which raises:
the steps before the failure and the failing step itself are the only ones
attempted, and the run completes exactly when no step fails. -/
theorem cleanup_stops_at_first_failing_step (m : StorageManager)
    (fail : TStep → Bool) :
    storageCleanupRun m fail =
      ((cleanupSteps m).takeWhile (fun s => !fail s) ++
        ((cleanupSteps m).dropWhile (fun s => !fail s)).take 1,
       (cleanupSteps m).all (fun s => !fail s)) :=
  runSteps_characterization fail (cleanupSteps m)

/-! ## Registry lemmas for the factory operations -/

theorem updFn_id (did : String) (u : StorageUnit) (d : StorageDevice) :
    (updFn did u d).id = d.id := by
  unfold updFn
  split <;> rfl

theorem updFn_kind (did : String) (u : StorageUnit) (d : StorageDevice) :
    (updFn did u d).kind = d.kind := by
  unfold updFn
  split <;> rfl

theorem addDisk_ok {m m2 : StorageManager} {i : String}
    (h : m.addDisk i = .ok m2) :
    m.getDeviceById i = none ∧ m2.devices = m.devices ++ [⟨i, .disk, []⟩] := by
  unfold StorageManager.addDisk at h
  cases hg : m.getDeviceById i with
  | some d => rw [hg] at h; cases h
  | none =>
    rw [hg] at h
    simp only [Except.ok.injEq] at h
    exact ⟨rfl, by rw [← h]⟩

theorem addVg_ok {m m2 : StorageManager} {i : String} {pvs : List String}
    (h : m.addVg i pvs = .ok m2) :
    m.getDeviceById i = none ∧
      m2.devices = m.devices ++ [⟨i, .volumeGroup pvs, []⟩] := by
  unfold StorageManager.addVg at h
  cases hg : m.getDeviceById i with
  | some d => rw [hg] at h; cases h
  | none =>
    rw [hg] at h
    simp only [Except.ok.injEq] at h
    exact ⟨rfl, by rw [← h]⟩

theorem addRaid_ok {m m2 : StorageManager} {i : String} {lvl : Nat}
    {ms : List String} {md : String} (h : m.addRaid i lvl ms md = .ok m2) :
    m.getDeviceById i = none ∧
      m2.devices = m.devices ++ [⟨i, .raid lvl md ms, []⟩] := by
  unfold StorageManager.addRaid at h
  cases hg : m.getDeviceById i with
  | some d => rw [hg] at h; cases h
  | none =>
    rw [hg] at h
    simp only [Except.ok.injEq] at h
    exact ⟨rfl, by rw [← h]⟩

theorem registerUnit_ok {m m2 : StorageManager} {did : String}
    {u : StorageUnit} (h : m.registerUnit did u = .ok m2) :
    m2.devices = m.devices.map (updFn did u) := by
  unfold StorageManager.registerUnit at h
  cases hmp : u.mountPoint with
  | none =>
    rw [hmp] at h
    simp only [Except.ok.injEq] at h
    rw [← h]
  | some mp =>
    rw [hmp] at h
    simp only at h
    cases hc : m.checkCanMountTo mp with
    | error e => rw [hc] at h; cases h
    | ok _ =>
      rw [hc] at h
      simp only [Except.ok.injEq] at h
      rw [← h]

theorem registerUnit_ok_checked {m m2 : StorageManager} {did : String}
    {u : StorageUnit} {mp : String} (h : m.registerUnit did u = .ok m2)
    (hmp : u.mountPoint = some mp) :
    isAbs mp = true ∧ m.getUnitByMountPointAll mp = none := by
  unfold StorageManager.registerUnit at h
  rw [hmp] at h
  simp only at h
  cases hc : m.checkCanMountTo mp with
  | error e => rw [hc] at h; cases h
  | ok _ =>
    unfold StorageManager.checkCanMountTo at hc
    by_cases habs : isAbs mp
    · simp only [habs, not_true_eq_false, if_false] at hc
      cases hfind : m.getUnitByMountPointAll mp with
      | some _ => rw [hfind] at hc; cases hc
      | none => exact ⟨habs, rfl⟩
    · simp only [habs] at hc
      simp at hc

theorem find?_id_map_updFn (l : List StorageDevice) (did : String)
    (u : StorageUnit) (i : String) :
    (l.map (updFn did u)).find? (fun d => d.id == i) =
      (l.find? (fun d => d.id == i)).map (updFn did u) := by
  induction l with
  | nil => rfl
  | cons d ds ih =>
    by_cases h : d.id == i
    · simp [List.find?_cons, updFn_id, h]
    · simp [List.find?_cons, updFn_id, h, ih]

theorem getDeviceById_registerUnit {m m2 : StorageManager} {did : String}
    {u : StorageUnit} (h : m.registerUnit did u = .ok m2) (i : String) :
    m2.getDeviceById i = (m.getDeviceById i).map (updFn did u) := by
  unfold StorageManager.getDeviceById
  rw [registerUnit_ok h]
  exact find?_id_map_updFn m.devices did u i

theorem getDeviceById_append (l1 l2 : List StorageDevice) (i : String) :
    (StorageManager.mk (l1 ++ l2)).getDeviceById i =
      ((StorageManager.mk l1).getDeviceById i).or
        ((StorageManager.mk l2).getDeviceById i) :=
  List.find?_append

/-- The RAID metadata version recorded for a device id, when that id names
a RAID. -/
def raidMetadataOf (m : StorageManager) (i : String) : Option String :=
  match m.getDeviceById i with
  | some ⟨_, .raid _ md _, _⟩ => some md
  | _ => none

theorem raidMetadataOf_registerUnit {m m2 : StorageManager} {did : String}
    {u : StorageUnit} (h : m.registerUnit did u = .ok m2) (i : String) :
    raidMetadataOf m2 i = raidMetadataOf m i := by
  unfold raidMetadataOf
  rw [getDeviceById_registerUnit h]
  cases hg : m.getDeviceById i with
  | none => rfl
  | some d =>
    obtain ⟨di, dk, du⟩ := d
    simp only [Option.map_some']
    by_cases hdid : di = did <;> cases dk <;> simp [updFn, hdid]

theorem isSome_getDeviceById_registerUnit {m m2 : StorageManager}
    {did : String} {u : StorageUnit} (h : m.registerUnit did u = .ok m2)
    (i : String) :
    (m2.getDeviceById i).isSome = (m.getDeviceById i).isSome := by
  rw [getDeviceById_registerUnit h]
  cases m.getDeviceById i <;> rfl

theorem addUnitDict_ok {st st2 : ParseState} {u : StorageUnit}
    (h : addUnitDict st u = .ok st2) :
    (st.units.lookup u.id) = none ∧
      st2 = { st with units := st.units ++ [(u.id, u)] } := by
  unfold addUnitDict at h
  by_cases hl : (st.units.lookup u.id).isSome
  · rw [if_pos hl] at h; cases h
  · rw [if_neg hl] at h
    simp only [Except.ok.injEq] at h
    exact ⟨Option.not_isSome_iff_eq_none.mp hl, h.symm⟩

/-- Error results of the factory operations on an already-registered id. -/
theorem addDisk_err_of_found {m : StorageManager} {i : String}
    (h : (m.getDeviceById i).isSome = true) :
    isErr (m.addDisk i) = true := by
  unfold StorageManager.addDisk
  cases hg : m.getDeviceById i with
  | none => rw [hg] at h; cases h
  | some d => rfl

theorem addVg_err_of_found {m : StorageManager} {i : String}
    (pvs : List String) (h : (m.getDeviceById i).isSome = true) :
    isErr (m.addVg i pvs) = true := by
  unfold StorageManager.addVg
  cases hg : m.getDeviceById i with
  | none => rw [hg] at h; cases h
  | some d => rfl

theorem addRaid_err_of_found {m : StorageManager} {i : String} (lvl : Nat)
    (ms : List String) (md : String)
    (h : (m.getDeviceById i).isSome = true) :
    isErr (m.addRaid i lvl ms md) = true := by
  unfold StorageManager.addRaid
  cases hg : m.getDeviceById i with
  | none => rw [hg] at h; cases h
  | some d => rfl

/-! ## Claim C10: the Cryptsetup singleton -/

/-- Manager states reachable from a fresh `StorageManager()` through the
factory operations. -/
inductive Reached : StorageManager → Prop where
  | init : Reached initManager
  | addDisk {m m2 : StorageManager} {i : String} :
      Reached m → m.addDisk i = .ok m2 → Reached m2
  | addVg {m m2 : StorageManager} {i : String} {pvs : List String} :
      Reached m → m.addVg i pvs = .ok m2 → Reached m2
  | addRaid {m m2 : StorageManager} {i : String} {lvl : Nat}
      {ms : List String} {md : String} :
      Reached m → m.addRaid i lvl ms md = .ok m2 → Reached m2
  | registerUnit {m m2 : StorageManager} {did : String} {u : StorageUnit} :
      Reached m → m.registerUnit did u = .ok m2 → Reached m2
  | addVolume {m m2 : StorageManager} {u part : StorageUnit} :
      Reached m → m.addVolume u part = .ok m2 → Reached m2

/-- **C10.** Every freshly constructed manager contains the Cryptsetup
singleton under the id `__cryptsetup__`, the registration is preserved by
every factory operation, and consequently any `add_disk`, `add_vg` or
`add_raid` call with id `__cryptsetup__` fails with a duplicate-id error,
and the device registry always contains the Cryptsetup device. -/
theorem cryptsetup_singleton_always_registered (m : StorageManager)
    (h : Reached m) :
    (∃ d, m.getDeviceById "__cryptsetup__" = some d ∧
      d.kind = .cryptsetup ∧ d ∈ m.devices) ∧
    isErr (m.addDisk "__cryptsetup__") = true ∧
    (∀ pvs, isErr (m.addVg "__cryptsetup__" pvs) = true) ∧
    (∀ lvl ms md, isErr (m.addRaid "__cryptsetup__" lvl ms md) = true) := by
  have key : ∃ d, m.getDeviceById "__cryptsetup__" = some d ∧
      d.kind = .cryptsetup := by
    induction h with
    | init => exact ⟨⟨"__cryptsetup__", .cryptsetup, []⟩, rfl, rfl⟩
    | addDisk _ hstep ih =>
      obtain ⟨d, hd, hk⟩ := ih
      obtain ⟨_, hdevs⟩ := addDisk_ok hstep
      refine ⟨d, ?_, hk⟩
      calc _ = (StorageManager.mk (_ ++ _)).getDeviceById _ := by rw [← hdevs]
        _ = some d := by rw [getDeviceById_append]; rw [show (StorageManager.mk _).getDeviceById "__cryptsetup__" = some d from hd]; rfl
    | addVg _ hstep ih =>
      obtain ⟨d, hd, hk⟩ := ih
      obtain ⟨_, hdevs⟩ := addVg_ok hstep
      refine ⟨d, ?_, hk⟩
      calc _ = (StorageManager.mk (_ ++ _)).getDeviceById _ := by rw [← hdevs]
        _ = some d := by rw [getDeviceById_append]; rw [show (StorageManager.mk _).getDeviceById "__cryptsetup__" = some d from hd]; rfl
    | addRaid _ hstep ih =>
      obtain ⟨d, hd, hk⟩ := ih
      obtain ⟨_, hdevs⟩ := addRaid_ok hstep
      refine ⟨d, ?_, hk⟩
      calc _ = (StorageManager.mk (_ ++ _)).getDeviceById _ := by rw [← hdevs]
        _ = some d := by rw [getDeviceById_append]; rw [show (StorageManager.mk _).getDeviceById "__cryptsetup__" = some d from hd]; rfl
    | @registerUnit m1 m2 did1 u1 _ hstep ih =>
      obtain ⟨d, hd, hk⟩ := ih
      refine ⟨updFn did1 u1 d, ?_, by rw [updFn_kind]; exact hk⟩
      rw [getDeviceById_registerUnit hstep, hd]
      rfl
    | @addVolume m1 m2 u1 part1 _ hstep ih =>
      obtain ⟨d, hd, hk⟩ := ih
      unfold StorageManager.addVolume at hstep
      split at hstep
      · cases hstep
      · refine ⟨updFn "__cryptsetup__" u1 d, ?_, by rw [updFn_kind]; exact hk⟩
        rw [getDeviceById_registerUnit hstep, hd]
        rfl
  obtain ⟨d, hd, hk⟩ := key
  have hsome : (m.getDeviceById "__cryptsetup__").isSome = true := by
    rw [hd]; rfl
  exact ⟨⟨d, hd, hk, List.mem_of_find?_eq_some hd⟩,
    addDisk_err_of_found hsome,
    fun pvs => addVg_err_of_found pvs hsome,
    fun lvl ms md => addRaid_err_of_found lvl ms md hsome⟩

/-- Witness for C10 at the freshly constructed manager. -/
theorem cryptsetup_singleton_always_registered_witness :
    (initManager.getDeviceById "__cryptsetup__" =
      some ⟨"__cryptsetup__", .cryptsetup, []⟩) ∧
    isErr (initManager.addDisk "__cryptsetup__") = true :=
  ⟨by decide,
   (cryptsetup_singleton_always_registered initManager Reached.init).2.1⟩

/-! ## Destructuring the parsing pipeline -/

theorem ok_bind {α β : Type} (a : α) (f : α → Except String β) :
    (Except.ok a >>= f) = f a := rfl

theorem err_bind {α β : Type} (e : String) (f : α → Except String β) :
    ((Except.error e : Except String α) >>= f) = .error e := rfl

/-- Parsing the partition list of a device neither adds nor removes
registry entries: device presence and RAID metadata are preserved. -/
theorem parseParts_pres {did : String} {k : UnitKind} {cs : List PartCfg}
    {st st2 : ParseState} (h : parseParts did k cs st = .ok st2)
    (i : String) :
    (st2.mgr.getDeviceById i).isSome = (st.mgr.getDeviceById i).isSome ∧
    raidMetadataOf st2.mgr i = raidMetadataOf st.mgr i := by
  induction cs generalizing st with
  | nil =>
    unfold parseParts at h
    simp only [Except.ok.injEq] at h
    subst h
    exact ⟨rfl, rfl⟩
  | cons c cs ih =>
    unfold parseParts at h
    cases hr : st.mgr.registerUnit did (mkPartUnit k c) with
    | error e => rw [hr, err_bind] at h; cases h
    | ok mgr2 =>
      rw [hr, ok_bind] at h
      cases ha : addUnitDict { st with mgr := mgr2 } (mkPartUnit k c) with
      | error e => rw [ha, err_bind] at h; cases h
      | ok st3 =>
        rw [ha, ok_bind] at h
        obtain ⟨p1, p2⟩ := ih h
        obtain ⟨_, hst3⟩ := addUnitDict_ok ha
        have hmgr3 : st3.mgr = mgr2 := by rw [hst3]
        constructor
        · rw [p1, hmgr3, isSome_getDeviceById_registerUnit hr]
        · rw [p2, hmgr3, raidMetadataOf_registerUnit hr]

/-! ## Claim C8: the RAID metadata version defaults to 1.2 -/

/-- **C8.** Parsing a `raids` entry that omits the `metadata` key
registers the RAID with metadata version `1.2`. -/
theorem raid_metadata_defaults_to_1_2 {r : RaidCfg} {st st2 : ParseState}
    (hmd : r.metadata = none) (h : parseRaidEntry r st = .ok st2) :
    raidMetadataOf st2.mgr (pathJoin "/dev/md" r.id) = some "1.2" := by
  unfold parseRaidEntry at h
  cases hm : resolveMembers r.members st with
  | error e => rw [hm, err_bind] at h; cases h
  | ok uu =>
    rw [hm, ok_bind] at h
    cases hr : st.mgr.addRaid (pathJoin "/dev/md" r.id) r.level r.members
        (if r.metadata.getD "" = "" then "1.2" else r.metadata.getD "") with
    | error e => rw [hr, err_bind] at h; cases h
    | ok mgr2 =>
      rw [hr, ok_bind] at h
      rw [(parseParts_pres h (pathJoin "/dev/md" r.id)).2]
      obtain ⟨hnone, hdevs⟩ := addRaid_ok hr
      have hlook : mgr2.getDeviceById (pathJoin "/dev/md" r.id) =
          some ⟨pathJoin "/dev/md" r.id,
            .raid r.level
              (if r.metadata.getD "" = "" then "1.2" else r.metadata.getD "")
              r.members, []⟩ := by
        show mgr2.devices.find? _ = _
        rw [hdevs, List.find?_append]
        rw [show st.mgr.devices.find?
          (fun d => d.id == pathJoin "/dev/md" r.id) = none from hnone]
        simp [List.find?]
      show raidMetadataOf ({ st with mgr := mgr2 } : ParseState).mgr _ = _
      unfold raidMetadataOf
      rw [show ({ st with mgr := mgr2 } : ParseState).mgr = mgr2 from rfl,
        hlook]
      rw [hmd]
      rfl

def stC8 : ParseState :=
  ⟨[], ⟨[⟨"__cryptsetup__", .cryptsetup, []⟩,
         ⟨"/dev/md/r0", .raid 1 "1.2" [], []⟩]⟩⟩

/-- Witness for C8: a `raids` entry with no `metadata` key parses
successfully and the registered RAID carries metadata version `1.2`. -/
theorem raid_metadata_defaults_to_1_2_witness :
    parseRaidEntry ⟨"r0", 1, none, [], []⟩ initParseState = .ok stC8 ∧
    raidMetadataOf stC8.mgr (pathJoin "/dev/md" "r0") = some "1.2" := by
  have hparse : parseRaidEntry ⟨"r0", 1, none, [], []⟩ initParseState =
      .ok stC8 := rfl
  exact ⟨hparse, raid_metadata_defaults_to_1_2 rfl hparse⟩

/-! ## Claim C9: RAIDs are registered under the /dev/md-prefixed id -/

/-- **C9 amended.** A `raids` entry with configured id `R` registers the
RAID under `os.path.join('/dev/md', R)` — which equals `/dev/md/R`
whenever `R` is not an absolute path — and not under `R` itself;
duplicate-id detection operates on the joined id (the registration
succeeds only when the joined id is free). -/
theorem raid_registered_under_joined_id {r : RaidCfg} {st st2 : ParseState}
    (h : parseRaidEntry r st = .ok st2) :
    st.mgr.getDeviceById (pathJoin "/dev/md" r.id) = none ∧
    (st2.mgr.getDeviceById (pathJoin "/dev/md" r.id)).isSome = true ∧
    (isAbs r.id = false → pathJoin "/dev/md" r.id = "/dev/md/" ++ r.id) ∧
    (isAbs r.id = false → st.mgr.getDeviceById r.id = none →
      st2.mgr.getDeviceById r.id = none) := by
  unfold parseRaidEntry at h
  cases hm : resolveMembers r.members st with
  | error e => rw [hm, err_bind] at h; cases h
  | ok uu =>
    rw [hm, ok_bind] at h
    cases hr : st.mgr.addRaid (pathJoin "/dev/md" r.id) r.level r.members
        (if r.metadata.getD "" = "" then "1.2" else r.metadata.getD "") with
    | error e => rw [hr, err_bind] at h; cases h
    | ok mgr2 =>
      rw [hr, ok_bind] at h
      obtain ⟨hnone, hdevs⟩ := addRaid_ok hr
      have hjoin : isAbs r.id = false →
          pathJoin "/dev/md" r.id = "/dev/md/" ++ r.id := by
        intro habs
        unfold pathJoin
        rw [habs]
        norm_num
        rw [if_neg (by decide), if_neg (by decide)]
        rfl
      refine ⟨hnone, ?_, hjoin, ?_⟩
      · rw [(parseParts_pres h (pathJoin "/dev/md" r.id)).1]
        show (mgr2.getDeviceById _).isSome = true
        unfold StorageManager.getDeviceById
        rw [hdevs, List.find?_append]
        rw [show st.mgr.devices.find?
          (fun d => d.id == pathJoin "/dev/md" r.id) = none from hnone]
        simp [List.find?]
      · intro habs hnone2
        have hne : pathJoin "/dev/md" r.id ≠ r.id := by
          rw [hjoin habs]
          intro hc
          have hlen := congrArg String.length hc
          rw [String.length_append,
            show ("/dev/md/").length = 8 from rfl] at hlen
          omega
        have hfalse : (pathJoin "/dev/md" r.id == r.id) = false :=
          beq_eq_false_iff_ne.mpr hne
        have hs2 : (st2.mgr.getDeviceById r.id).isSome = false := by
          rw [(parseParts_pres h r.id).1]
          show (mgr2.getDeviceById _).isSome = false
          unfold StorageManager.getDeviceById
          rw [hdevs, List.find?_append]
          rw [show st.mgr.devices.find? (fun d => d.id == r.id) = none
            from hnone2]
          simp [List.find?, hfalse]
        exact Option.not_isSome_iff_eq_none.mp (by rw [hs2]; decide)

/-- Witness for the amended C9. -/
theorem raid_registered_under_joined_id_witness :
    parseRaidEntry ⟨"r0", 1, none, [], []⟩ initParseState = .ok stC8 ∧
    (stC8.mgr.getDeviceById "/dev/md/r0").isSome = true ∧
    stC8.mgr.getDeviceById "r0" = none := by
  have hparse : parseRaidEntry ⟨"r0", 1, none, [], []⟩ initParseState =
      .ok stC8 := rfl
  have hall := raid_registered_under_joined_id hparse
  refine ⟨hparse, ?_, hall.2.2.2 (by decide) (by decide)⟩
  have h2 := hall.2.1
  rw [show pathJoin "/dev/md" "r0" = "/dev/md/r0" by decide] at h2
  exact h2

/-- A configuration whose RAID entry has an absolute configured id. -/
def cfgC9 : StorageCfg :=
  ⟨[⟨"d", [⟨"root", 0, some .ext4, [], some "/", [], none, "U1"⟩,
           ⟨"m1", 0, some .raid_member, [], none, [], none, "U2"⟩]⟩],
   none, some [⟨"/x", 1, none, ["m1"], []⟩], none⟩

def c9ParsedOk : Bool := (storageInstallerParse cfgC9).isOk

/-- Lookup under the literal `/dev/md/R` id the claim predicts. -/
def c9PrefixedLookup : Bool :=
  match storageInstallerParse cfgC9 with
  | .ok st => (st.mgr.getDeviceById ("/dev/md/" ++ "/x")).isSome
  | .error _ => true

/-- Lookup under the configured id itself. -/
def c9RawLookup : Bool :=
  match storageInstallerParse cfgC9 with
  | .ok st => (st.mgr.getDeviceById "/x").isSome
  | .error _ => false

/-- **C9 counterexample.** For the RAID entry with configured id `/x`
(`os.path.join('/dev/md', '/x')` discards the first component), parsing
succeeds, `get_device_by_id('/dev/md//x')` — the literal `/dev/md/R` id
the claim predicts — returns `None`, and the RAID is registered under the
configured id `/x` itself, contradicting both halves of the claim. -/
theorem raid_with_absolute_id_not_prefixed :
    c9ParsedOk = true ∧ c9PrefixedLookup = false ∧ c9RawLookup = true := by
  decide

/-! ## Claim C4: do unit and device ids share one namespace? -/

/-- A configuration reusing the id `a` for both a disk (device) and a
partition (unit). -/
def cfgC4 : StorageCfg :=
  ⟨[⟨"a", [⟨"a", 0, some .ext4, [], some "/", [], none, "UUID-a"⟩]⟩],
   none, none, none⟩

def c4SharedIdAccepted : Bool :=
  match storageInstallerParse cfgC4 with
  | .ok st => (st.mgr.getDeviceById "a").isSome &&
      (st.units.lookup "a").isSome
  | .error _ => false

/-- **C4 counterexample.** The id `a` is registered as a disk (device
registry) and then again as a partition (unit registry), and parsing
succeeds with both registrations in place: the second registration of an
already-used id is not rejected, so unit and device ids do not share one
namespace. -/
theorem device_and_unit_id_reuse_accepted :
    (storageInstallerParse cfgC4).isOk = true ∧ c4SharedIdAccepted = true := by
  decide

/-- **C4 amended.** Ids are unique within each namespace separately:
`_add_unit` rejects an id already registered as a unit, and
`add_disk`/`add_vg`/`add_raid` reject an id already registered as a
device; an id already used in the other namespace is accepted (see the
counterexample). -/
theorem duplicate_id_rejected_within_namespace :
    (∀ (st : ParseState) (u : StorageUnit),
      (st.units.lookup u.id).isSome = true →
      isErr (addUnitDict st u) = true) ∧
    (∀ (m : StorageManager) (i : String),
      (m.getDeviceById i).isSome = true →
      isErr (m.addDisk i) = true ∧
      (∀ pvs, isErr (m.addVg i pvs) = true) ∧
      (∀ lvl ms md, isErr (m.addRaid i lvl ms md) = true)) := by
  constructor
  · intro st u hl
    unfold addUnitDict
    rw [if_pos hl]
    rfl
  · intro m i hs
    exact ⟨addDisk_err_of_found hs, fun pvs => addVg_err_of_found pvs hs,
      fun lvl ms md => addRaid_err_of_found lvl ms md hs⟩

/-- Witness for the amended C4. -/
theorem duplicate_id_rejected_within_namespace_witness :
    ((([("a", mkPartUnit .partition ⟨"a", 0, none, [], none, [], none, "U"⟩)]
        : List (String × StorageUnit)).lookup "a").isSome = true) ∧
    isErr (addUnitDict
      ⟨[("a", mkPartUnit .partition ⟨"a", 0, none, [], none, [], none, "U"⟩)],
        initManager⟩
      (mkPartUnit .partition ⟨"a", 0, none, [], none, [], none, "U"⟩)) = true ∧
    isErr (initManager.addDisk "__cryptsetup__") = true :=
  ⟨by decide,
   duplicate_id_rejected_within_namespace.1
     ⟨[("a", mkPartUnit .partition ⟨"a", 0, none, [], none, [], none, "U"⟩)],
       initManager⟩
     (mkPartUnit .partition ⟨"a", 0, none, [], none, [], none, "U"⟩)
     (by decide),
   (duplicate_id_rejected_within_namespace.2 initManager "__cryptsetup__"
     (by decide)).1⟩

/-! ## Claim C5: the layering lattice for crypto volumes -/

theorem lookup_mem {l : List (String × StorageUnit)} {k : String}
    {v : StorageUnit} (h : l.lookup k = some v) : (k, v) ∈ l := by
  induction l with
  | nil => cases h
  | cons p ps ih =>
    obtain ⟨a, b⟩ := p
    by_cases hk : k == a
    · simp only [List.lookup, hk, if_true] at h
      simp only [Option.some.injEq] at h
      subst h
      have : k = a := by simpa using hk
      subst this
      exact List.mem_cons_self _ _
    · simp only [List.lookup, hk, if_false] at h
      exact List.mem_cons_of_mem _ (ih h)

/-- The unit entries contributed by the partition list of one device. -/
def partEntries (k : UnitKind) (cs : List PartCfg) :
    List (String × StorageUnit) :=
  cs.map (fun c => (c.id, mkPartUnit k c))

/-- The unit entries contributed by the `disks` section. -/
def diskEntries (ds : List DiskCfg) : List (String × StorageUnit) :=
  (ds.map (fun d => partEntries .partition d.partitions)).flatten

/-- The ids of all partitions declared under `disks`. -/
def diskPartIds (cfg : StorageCfg) : List String :=
  (cfg.disks.map (fun d => d.partitions.map (fun c => c.id))).flatten

theorem parseParts_units {did : String} {k : UnitKind} {cs : List PartCfg}
    {st st2 : ParseState} (h : parseParts did k cs st = .ok st2) :
    st2.units = st.units ++ partEntries k cs := by
  induction cs generalizing st with
  | nil =>
    unfold parseParts at h
    simp only [Except.ok.injEq] at h
    subst h
    simp [partEntries]
  | cons c cs ih =>
    unfold parseParts at h
    cases hr : st.mgr.registerUnit did (mkPartUnit k c) with
    | error e => rw [hr, err_bind] at h; cases h
    | ok mgr2 =>
      rw [hr, ok_bind] at h
      cases ha : addUnitDict { st with mgr := mgr2 } (mkPartUnit k c) with
      | error e => rw [ha, err_bind] at h; cases h
      | ok st3 =>
        rw [ha, ok_bind] at h
        obtain ⟨_, hst3⟩ := addUnitDict_ok ha
        rw [ih h, hst3]
        simp [partEntries, mkPartUnit]

theorem parseDisks_units {ds : List DiskCfg} {st st2 : ParseState}
    (h : parseDisks ds st = .ok st2) :
    st2.units = st.units ++ diskEntries ds := by
  induction ds generalizing st with
  | nil =>
    unfold parseDisks at h
    simp only [Except.ok.injEq] at h
    subst h
    simp [diskEntries]
  | cons d ds ih =>
    unfold parseDisks at h
    cases hd : st.mgr.addDisk d.id with
    | error e => rw [hd, err_bind] at h; cases h
    | ok mgr2 =>
      rw [hd, ok_bind] at h
      cases hp : parseParts d.id .partition d.partitions
          { st with mgr := mgr2 } with
      | error e => rw [hp, err_bind] at h; cases h
      | ok st3 =>
        rw [hp, ok_bind] at h
        rw [ih h, parseParts_units hp]
        simp [diskEntries]

theorem parseCryptoEntry_ok {c : CryptoCfg} {st st2 : ParseState}
    (h : parseCryptoEntry c st = .ok st2) :
    (∃ part, st.units.lookup c.onPartition = some part ∧
      part.kind = .partition) ∧
    st2.units = st.units ++ [(c.id, mkCryptoUnit c)] ∧
    ∃ mgr2, st.mgr.registerUnit "__cryptsetup__" (mkCryptoUnit c) = .ok mgr2 ∧
      st2.mgr = mgr2 := by
  unfold parseCryptoEntry at h
  unfold unitById at h
  cases hl : st.units.lookup c.onPartition with
  | none => rw [hl] at h; simp only at h; rw [err_bind] at h; cases h
  | some part =>
    rw [hl] at h
    simp only at h
    rw [ok_bind] at h
    unfold StorageManager.addVolume at h
    by_cases hk : part.kind ≠ UnitKind.partition
    · rw [if_pos hk, err_bind] at h; cases h
    · rw [if_neg hk] at h
      cases hr : st.mgr.registerUnit "__cryptsetup__" (mkCryptoUnit c) with
      | error e => rw [hr, err_bind] at h; cases h
      | ok mgr2 =>
        rw [hr, ok_bind] at h
        obtain ⟨_, hst2⟩ := addUnitDict_ok h
        refine ⟨⟨part, rfl, not_not.mp hk⟩, ?_, mgr2, rfl, ?_⟩
        · rw [hst2]
          simp [mkCryptoUnit]
        · rw [hst2]

theorem parseCryptoList_resolves {cs : List CryptoCfg} {st st2 : ParseState}
    (h : parseCryptoList cs st = .ok st2) :
    ∀ c ∈ cs, ∃ part, st.units.lookup c.onPartition = some part ∧
      part.kind = .partition := by
  induction cs generalizing st with
  | nil => intro c hc; cases hc
  | cons c0 cs ih =>
    unfold parseCryptoList at h
    cases he : parseCryptoEntry c0 st with
    | error e => rw [he, err_bind] at h; cases h
    | ok st3 =>
      rw [he, ok_bind] at h
      obtain ⟨⟨part0, hl0, hk0⟩, hunits, _⟩ := parseCryptoEntry_ok he
      intro c hc
      rcases List.mem_cons.mp hc with hceq | hmem
      · subst hceq
        exact ⟨part0, hl0, hk0⟩
      · obtain ⟨part, hl, hk⟩ := ih h c hmem
        rw [hunits, List.lookup_append] at hl
        cases hbase : st.units.lookup c.onPartition with
        | some p =>
          rw [hbase] at hl
          rw [show (some p).or ([(c0.id, mkCryptoUnit c0)].lookup
            c.onPartition) = some p from rfl] at hl
          simp only [Option.some.injEq] at hl
          subst hl
          exact ⟨p, rfl, hk⟩
        | none =>
          rw [hbase] at hl
          simp only [Option.none_or] at hl
          -- hl : [(c0.id, mkCryptoUnit c0)].lookup c.onPartition = some part
          by_cases hc0 : c.onPartition == c0.id
          · simp only [List.lookup, hc0, if_true, Option.some.injEq] at hl
            subst hl
            cases hk
          · simp only [List.lookup, hc0, if_false] at hl
            cases hl

/-- A positive configuration: a crypto volume is a RAID member, and a RAID
partition plus a crypto volume are LVM physical volumes. -/
def cfgC5pos : StorageCfg :=
  ⟨[⟨"/dev/vda",
     [⟨"root", 0, some .ext4, [], some "/", [], none, "U1"⟩,
      ⟨"secret1", 0, some .crypto_partition, [], none, [], some "pw1", "U2"⟩,
      ⟨"secret2", 0, some .crypto_partition, [], none, [], some "pw2", "U3"⟩]⟩],
   some [⟨"cv1", "secret1", some .raid_member, [], none, "U4"⟩,
         ⟨"cv2", "secret2", some .physical_volume, [], none, "U5"⟩],
   some [⟨"r1", 1, none, ["cv1"],
          [⟨"pv1", 0, some .physical_volume, [], none, [], none, "U6"⟩]⟩],
   some [⟨"vg1", ["pv1", "cv2"],
          [⟨"home", 0, some .ext4, [], some "/home", [], none, "U7"⟩]⟩]⟩

/-- **C5.** A `crypto_volumes` entry must reference a Disk partition:
an `on_partition` reference that does not resolve in the unit registry
fails (RAID partitions and logical volumes are parsed after the crypto
volumes, so their ids never resolve at that point — any crypto reference
in a successfully parsed configuration names a partition declared under
`disks`), and a reference resolving to a non-Partition unit fails; whereas
a crypto volume as a RAID member, and a RAID partition or crypto volume as
an LVM physical volume, parse successfully. -/
theorem crypto_volume_must_sit_on_disk_partition :
    (∀ (st : ParseState) (c : CryptoCfg),
      st.units.lookup c.onPartition = none →
      isErr (parseCryptoEntry c st) = true) ∧
    (∀ (st : ParseState) (c : CryptoCfg) (part : StorageUnit),
      st.units.lookup c.onPartition = some part →
      part.kind ≠ .partition →
      isErr (parseCryptoEntry c st) = true) ∧
    (∀ (cfg : StorageCfg) (st : ParseState) (cs : List CryptoCfg),
      storageInstallerParse cfg = .ok st →
      cfg.cryptoVolumes = some cs →
      ∀ c ∈ cs, c.onPartition ∈ diskPartIds cfg) ∧
    (storageInstallerParse cfgC5pos).isOk = true := by
  refine ⟨?_, ?_, ?_, by decide⟩
  · intro st c hl
    unfold parseCryptoEntry unitById
    rw [hl]
    simp only
    rw [err_bind]
    rfl
  · intro st c part hl hk
    unfold parseCryptoEntry unitById
    rw [hl]
    simp only
    rw [ok_bind]
    unfold StorageManager.addVolume
    rw [if_pos hk, err_bind]
    rfl
  · intro cfg st cs h hcv
    unfold storageInstallerParse at h
    cases hd : parseDisks cfg.disks initParseState with
    | error e => rw [hd, err_bind] at h; cases h
    | ok st1 =>
      rw [hd, ok_bind] at h
      cases hsec : parseCryptoSection cfg.cryptoVolumes st1 with
      | error e => rw [hsec, err_bind] at h; cases h
      | ok st2 =>
        unfold parseCryptoSection at hsec
        rw [hcv] at hsec
        intro c hc
        obtain ⟨part, hl, hk⟩ := parseCryptoList_resolves hsec c hc
        have hu1 : st1.units = diskEntries cfg.disks := by
          have h2 := parseDisks_units hd
          simpa [initParseState] using h2
        rw [hu1] at hl
        have hmem := lookup_mem hl
        unfold diskEntries at hmem
        rw [List.mem_flatten] at hmem
        obtain ⟨l, hlmem, hpl⟩ := hmem
        rw [List.mem_map] at hlmem
        obtain ⟨d, hdm, rfl⟩ := hlmem
        unfold partEntries at hpl
        rw [List.mem_map] at hpl
        obtain ⟨pc, hpcm, hpc⟩ := hpl
        unfold diskPartIds
        rw [List.mem_flatten]
        refine ⟨d.partitions.map (fun c => c.id),
          List.mem_map.mpr ⟨d, hdm, rfl⟩, ?_⟩
        rw [List.mem_map]
        exact ⟨pc, hpcm, congrArg Prod.fst hpc⟩

/-- Witness for C5: a crypto volume placed on another crypto volume — a
unit that is not a Partition — is rejected, and an unresolvable reference
is rejected. -/
theorem crypto_volume_must_sit_on_disk_partition_witness :
    (([("cv0", mkCryptoUnit ⟨"cv0", "p0", none, [], none, "U0"⟩)]
        : List (String × StorageUnit)).lookup "cv0" =
      some (mkCryptoUnit ⟨"cv0", "p0", none, [], none, "U0"⟩)) ∧
    isErr (parseCryptoEntry ⟨"cv1", "cv0", none, [], none, "U1"⟩
      ⟨[("cv0", mkCryptoUnit ⟨"cv0", "p0", none, [], none, "U0"⟩)],
        initManager⟩) = true ∧
    isErr (parseCryptoEntry ⟨"cv1", "nosuch", none, [], none, "U1"⟩
      initParseState) = true := by
  refine ⟨by decide, ?_, ?_⟩
  · exact crypto_volume_must_sit_on_disk_partition.2.1
      ⟨[("cv0", mkCryptoUnit ⟨"cv0", "p0", none, [], none, "U0"⟩)],
        initManager⟩
      ⟨"cv1", "cv0", none, [], none, "U1"⟩
      (mkCryptoUnit ⟨"cv0", "p0", none, [], none, "U0"⟩)
      (by decide) (by decide)
  · exact crypto_volume_must_sit_on_disk_partition.1 initParseState
      ⟨"cv1", "nosuch", none, [], none, "U1"⟩ (by decide)

/-! ## Claim C6: exactly one root mount point -/

/-- All mount points declared by registered units. -/
def graphMountPoints (m : StorageManager) : List String :=
  m.storageUnits.filterMap (fun u => u.mountPoint)

/-- Registry well-formedness: device ids are unique (factory duplicate-id
checks) and declared mount points are unique (`check_can_mount_to`). -/
def Wf (m : StorageManager) : Prop :=
  (m.devices.map (fun d => d.id)).Nodup ∧ (graphMountPoints m).Nodup

theorem getDeviceById_none_not_mem {m : StorageManager} {i : String}
    (h : m.getDeviceById i = none) :
    i ∉ m.devices.map (fun d => d.id) := by
  intro hmem
  rw [List.mem_map] at hmem
  obtain ⟨d, hd, hdi⟩ := hmem
  exact (List.find?_eq_none.mp h d hd) (by simp [hdi])

theorem wf_addDevice {m : StorageManager} {i : String} {dk : DeviceKind}
    (hwf : Wf m) (hnone : m.getDeviceById i = none) :
    Wf ⟨m.devices ++ [⟨i, dk, []⟩]⟩ := by
  obtain ⟨hids, hmps⟩ := hwf
  constructor
  · rw [List.map_append, List.nodup_append]
    refine ⟨hids, by simp, ?_⟩
    intro a ha hb
    simp only [List.map_cons, List.map_nil, List.mem_singleton] at hb
    subst hb
    exact getDeviceById_none_not_mem hnone ha
  · unfold graphMountPoints StorageManager.storageUnits
    rw [List.map_append, List.flatten_append]
    simp only [List.map_cons, List.map_nil, List.flatten_cons,
      List.flatten_nil, List.append_nil]
    exact hmps

theorem map_updFn_of_not_mem {l : List StorageDevice} {did : String}
    (h : did ∉ l.map (fun d => d.id)) (u : StorageUnit) :
    l.map (updFn did u) = l := by
  induction l with
  | nil => rfl
  | cons d ds ih =>
    simp only [List.map_cons, List.mem_cons, not_or] at h
    rw [List.map_cons, ih h.2]
    unfold updFn
    rw [if_neg (fun hc => h.1 hc.symm)]

theorem storageUnits_updFn_perm {l : List StorageDevice} {did : String}
    (hnd : (l.map (fun d => d.id)).Nodup)
    (hmem : did ∈ l.map (fun d => d.id)) (u : StorageUnit) :
    (StorageManager.mk (l.map (updFn did u))).storageUnits.Perm
      ((StorageManager.mk l).storageUnits ++ [u]) := by
  induction l with
  | nil => cases hmem
  | cons d ds ih =>
    simp only [List.map_cons, List.nodup_cons] at hnd
    by_cases hd : d.id = did
    · have hnotin : did ∉ ds.map (fun d => d.id) := by
        rw [← hd]; exact hnd.1
      rw [List.map_cons, map_updFn_of_not_mem hnotin]
      unfold StorageManager.storageUnits
      rw [show updFn did u d = { d with units := d.units ++ [u] } from
        if_pos hd]
      simp only [List.map_cons, List.flatten_cons]
      rw [List.append_assoc, List.append_assoc]
      exact List.Perm.append_left d.units
        (List.perm_append_comm.trans (List.Perm.refl _))
    · have hmem2 : did ∈ ds.map (fun d => d.id) := by
        rcases List.mem_cons.mp hmem with hc | hc
        · exact absurd hc.symm hd
        · exact hc
      rw [List.map_cons]
      rw [show updFn did u d = d from if_neg hd]
      unfold StorageManager.storageUnits
      simp only [List.map_cons, List.flatten_cons]
      have hperm := ih hnd.2 hmem2
      unfold StorageManager.storageUnits at hperm
      rw [List.append_assoc]
      exact List.Perm.append_left d.units hperm

theorem mem_graphMountPoints {m : StorageManager} {mp : String} :
    mp ∈ graphMountPoints m ↔
      ∃ u ∈ m.storageUnits, u.mountPoint = some mp := by
  unfold graphMountPoints
  rw [List.mem_filterMap]

theorem getUnitByMountPointAll_none_not_mem {m : StorageManager}
    {mp : String} (h : m.getUnitByMountPointAll mp = none) :
    mp ∉ graphMountPoints m := by
  intro hmem
  obtain ⟨u, hu, hmp⟩ := mem_graphMountPoints.mp hmem
  exact (List.find?_eq_none.mp h u hu) (by simp [hmp])

theorem wf_registerUnit {m m2 : StorageManager} {did : String}
    {u : StorageUnit} (hwf : Wf m) (h : m.registerUnit did u = .ok m2) :
    Wf m2 := by
  obtain ⟨hids, hmps⟩ := hwf
  have hdev := registerUnit_ok h
  have hids2 : m2.devices.map (fun d => d.id) =
      m.devices.map (fun d => d.id) := by
    rw [hdev, List.map_map]
    exact List.map_congr_left (fun d _ => updFn_id did u d)
  by_cases hmem : did ∈ m.devices.map (fun d => d.id)
  · have hsu : m2.storageUnits.Perm (m.storageUnits ++ [u]) := by
      have : m2.storageUnits =
          (StorageManager.mk (m.devices.map (updFn did u))).storageUnits := by
        unfold StorageManager.storageUnits
        rw [hdev]
      rw [this]
      exact storageUnits_updFn_perm hids hmem u
    have hp2 : (graphMountPoints m2).Perm
        (graphMountPoints m ++ (u.mountPoint).toList) := by
      unfold graphMountPoints
      have hfm := hsu.filterMap (fun u => u.mountPoint)
      rw [List.filterMap_append] at hfm
      have : List.filterMap (fun u => u.mountPoint) [u] =
          (u.mountPoint).toList := by
        cases hualt : u.mountPoint <;> simp [List.filterMap_cons, hualt]
      rw [this] at hfm
      exact hfm
    refine ⟨by rw [hids2]; exact hids, ?_⟩
    rw [hp2.nodup_iff]
    cases hum : u.mountPoint with
    | none => simpa using hmps
    | some mp =>
      obtain ⟨_, hnone⟩ := registerUnit_ok_checked h hum
      rw [List.nodup_append]
      refine ⟨hmps, by simp, ?_⟩
      intro a ha hb
      simp only [Option.toList_some, List.mem_singleton] at hb
      subst hb
      exact getUnitByMountPointAll_none_not_mem hnone ha
  · have hdevs2 : m2.devices = m.devices := by
      rw [hdev, map_updFn_of_not_mem hmem]
    have : graphMountPoints m2 = graphMountPoints m := by
      unfold graphMountPoints StorageManager.storageUnits
      rw [hdevs2]
    exact ⟨by rw [hids2]; exact hids, by rw [this]; exact hmps⟩

theorem wf_addDisk {m m2 : StorageManager} {i : String} (hwf : Wf m)
    (h : m.addDisk i = .ok m2) : Wf m2 := by
  obtain ⟨hnone, hdevs⟩ := addDisk_ok h
  have hm2 : m2 = ⟨m.devices ++ [⟨i, .disk, []⟩]⟩ := by
    cases m2
    exact congrArg StorageManager.mk hdevs
  rw [hm2]
  exact wf_addDevice hwf hnone

theorem wf_addVg {m m2 : StorageManager} {i : String} {pvs : List String}
    (hwf : Wf m) (h : m.addVg i pvs = .ok m2) : Wf m2 := by
  obtain ⟨hnone, hdevs⟩ := addVg_ok h
  have hm2 : m2 = ⟨m.devices ++ [⟨i, .volumeGroup pvs, []⟩]⟩ := by
    cases m2
    exact congrArg StorageManager.mk hdevs
  rw [hm2]
  exact wf_addDevice hwf hnone

theorem wf_addRaid {m m2 : StorageManager} {i : String} {lvl : Nat}
    {ms : List String} {md : String} (hwf : Wf m)
    (h : m.addRaid i lvl ms md = .ok m2) : Wf m2 := by
  obtain ⟨hnone, hdevs⟩ := addRaid_ok h
  have hm2 : m2 = ⟨m.devices ++ [⟨i, .raid lvl md ms, []⟩]⟩ := by
    cases m2
    exact congrArg StorageManager.mk hdevs
  rw [hm2]
  exact wf_addDevice hwf hnone

theorem wf_parseParts {did : String} {k : UnitKind} {cs : List PartCfg}
    {st st2 : ParseState} (hwf : Wf st.mgr)
    (h : parseParts did k cs st = .ok st2) : Wf st2.mgr := by
  induction cs generalizing st with
  | nil =>
    unfold parseParts at h
    simp only [Except.ok.injEq] at h
    subst h
    exact hwf
  | cons c cs ih =>
    unfold parseParts at h
    cases hr : st.mgr.registerUnit did (mkPartUnit k c) with
    | error e => rw [hr, err_bind] at h; cases h
    | ok mgr2 =>
      rw [hr, ok_bind] at h
      cases ha : addUnitDict { st with mgr := mgr2 } (mkPartUnit k c) with
      | error e => rw [ha, err_bind] at h; cases h
      | ok st3 =>
        rw [ha, ok_bind] at h
        obtain ⟨_, hst3⟩ := addUnitDict_ok ha
        have hw3 : Wf st3.mgr := by
          rw [hst3]
          exact wf_registerUnit hwf hr
        exact ih hw3 h

theorem wf_parseDisks {ds : List DiskCfg} {st st2 : ParseState}
    (hwf : Wf st.mgr) (h : parseDisks ds st = .ok st2) : Wf st2.mgr := by
  induction ds generalizing st with
  | nil =>
    unfold parseDisks at h
    simp only [Except.ok.injEq] at h
    subst h
    exact hwf
  | cons d ds ih =>
    unfold parseDisks at h
    cases hd : st.mgr.addDisk d.id with
    | error e => rw [hd, err_bind] at h; cases h
    | ok mgr2 =>
      rw [hd, ok_bind] at h
      cases hp : parseParts d.id .partition d.partitions
          { st with mgr := mgr2 } with
      | error e => rw [hp, err_bind] at h; cases h
      | ok st3 =>
        rw [hp, ok_bind] at h
        exact ih (wf_parseParts (wf_addDisk hwf hd) hp) h

theorem wf_parseCryptoList {cs : List CryptoCfg} {st st2 : ParseState}
    (hwf : Wf st.mgr) (h : parseCryptoList cs st = .ok st2) :
    Wf st2.mgr := by
  induction cs generalizing st with
  | nil =>
    unfold parseCryptoList at h
    simp only [Except.ok.injEq] at h
    subst h
    exact hwf
  | cons c cs ih =>
    unfold parseCryptoList at h
    cases he : parseCryptoEntry c st with
    | error e => rw [he, err_bind] at h; cases h
    | ok st3 =>
      rw [he, ok_bind] at h
      obtain ⟨_, _, mgr2, hreg, hmgr⟩ := parseCryptoEntry_ok he
      exact ih (by rw [hmgr]; exact wf_registerUnit hwf hreg) h

theorem wf_parseRaidList {rs : List RaidCfg} {st st2 : ParseState}
    (hwf : Wf st.mgr) (h : parseRaidList rs st = .ok st2) :
    Wf st2.mgr := by
  induction rs generalizing st with
  | nil =>
    unfold parseRaidList at h
    simp only [Except.ok.injEq] at h
    subst h
    exact hwf
  | cons r rs ih =>
    unfold parseRaidList at h
    cases he : parseRaidEntry r st with
    | error e => rw [he, err_bind] at h; cases h
    | ok st3 =>
      rw [he, ok_bind] at h
      refine ih ?_ h
      unfold parseRaidEntry at he
      cases hm : resolveMembers r.members st with
      | error e => rw [hm, err_bind] at he; cases he
      | ok uu =>
        rw [hm, ok_bind] at he
        cases hr : st.mgr.addRaid (pathJoin "/dev/md" r.id) r.level r.members
            (if r.metadata.getD "" = "" then "1.2"
              else r.metadata.getD "") with
        | error e => rw [hr, err_bind] at he; cases he
        | ok mgr2 =>
          rw [hr, ok_bind] at he
          exact wf_parseParts (wf_addRaid hwf hr) he

theorem wf_parseVGList {vs : List VGCfg} {st st2 : ParseState}
    (hwf : Wf st.mgr) (h : parseVGList vs st = .ok st2) : Wf st2.mgr := by
  induction vs generalizing st with
  | nil =>
    unfold parseVGList at h
    simp only [Except.ok.injEq] at h
    subst h
    exact hwf
  | cons v vs ih =>
    unfold parseVGList at h
    cases he : parseVGEntry v st with
    | error e => rw [he, err_bind] at h; cases h
    | ok st3 =>
      rw [he, ok_bind] at h
      refine ih ?_ h
      unfold parseVGEntry at he
      cases hm : resolveMembers v.physicalVolumes st with
      | error e => rw [hm, err_bind] at he; cases he
      | ok uu =>
        rw [hm, ok_bind] at he
        cases hv : st.mgr.addVg v.id v.physicalVolumes with
        | error e => rw [hv, err_bind] at he; cases he
        | ok mgr2 =>
          rw [hv, ok_bind] at he
          exact wf_parseParts (wf_addVg hwf hv) he

theorem wf_parseCryptoSection {o : Option (List CryptoCfg)}
    {st st2 : ParseState} (hwf : Wf st.mgr)
    (h : parseCryptoSection o st = .ok st2) : Wf st2.mgr := by
  cases o with
  | none =>
    unfold parseCryptoSection at h
    simp only [Except.ok.injEq] at h
    rw [← h]
    exact hwf
  | some cs =>
    unfold parseCryptoSection at h
    exact wf_parseCryptoList hwf h

theorem wf_parseRaidSection {o : Option (List RaidCfg)}
    {st st2 : ParseState} (hwf : Wf st.mgr)
    (h : parseRaidSection o st = .ok st2) : Wf st2.mgr := by
  cases o with
  | none =>
    unfold parseRaidSection at h
    simp only [Except.ok.injEq] at h
    rw [← h]
    exact hwf
  | some rs =>
    unfold parseRaidSection at h
    exact wf_parseRaidList hwf h

theorem wf_parseVGSection {o : Option (List VGCfg)}
    {st st2 : ParseState} (hwf : Wf st.mgr)
    (h : parseVGSection o st = .ok st2) : Wf st2.mgr := by
  cases o with
  | none =>
    unfold parseVGSection at h
    simp only [Except.ok.injEq] at h
    rw [← h]
    exact hwf
  | some vs =>
    unfold parseVGSection at h
    exact wf_parseVGList hwf h

theorem count_root_filterMap (l : List StorageUnit) :
    (l.filterMap (fun u => u.mountPoint)).count "/" =
      (l.filter (fun u => u.mountPoint == some "/")).length := by
  induction l with
  | nil => rfl
  | cons u us ih =>
    cases hmp : u.mountPoint with
    | none => simp [List.filterMap_cons, List.filter_cons, hmp, ih]
    | some mp =>
      by_cases hr : mp = "/"
      · subst hr
        simp [List.filterMap_cons, List.filter_cons, hmp, List.count_cons,
          ih]
      · simp [List.filterMap_cons, List.filter_cons, hmp, List.count_cons,
          hr, ih]

/-- A configuration with no `/` mount point. -/
def cfgC6noRoot : StorageCfg :=
  ⟨[⟨"d", [⟨"b", 0, some .ext4, [], some "/boot", [], none, "U1"⟩]⟩],
   none, none, none⟩

/-- A configuration with two units mounted at `/`. -/
def cfgC6twoRoot : StorageCfg :=
  ⟨[⟨"d", [⟨"r1", 0, some .ext4, [], some "/", [], none, "U1"⟩,
           ⟨"r2", 0, some .ext4, [], some "/", [], none, "U2"⟩]⟩],
   none, none, none⟩

/-- **C6.** Every successfully constructed storage graph has exactly one
unit with mount point `/`; a configuration with no `/` mount point, or
with more than one, is rejected during `StorageInstaller` construction
(parsing plus `_validate`), which performs no destructive device
operation. -/
theorem exactly_one_root_mount :
    (∀ (cfg : StorageCfg) (st : ParseState),
      storageInstallerParse cfg = .ok st →
      (st.mgr.storageUnits.filter
        (fun u => u.mountPoint == some "/")).length = 1) ∧
    isErr (storageInstallerParse cfgC6noRoot) = true ∧
    isErr (storageInstallerParse cfgC6twoRoot) = true := by
  refine ⟨?_, by decide, by decide⟩
  intro cfg st h
  unfold storageInstallerParse at h
  cases hd : parseDisks cfg.disks initParseState with
  | error e => rw [hd, err_bind] at h; cases h
  | ok st1 =>
    rw [hd, ok_bind] at h
    have hw1 : Wf st1.mgr :=
      wf_parseDisks ⟨by decide, by decide⟩ hd
    cases hc2 : parseCryptoSection cfg.cryptoVolumes st1 with
    | error e => rw [hc2, err_bind] at h; cases h
    | ok st2 =>
      rw [hc2, ok_bind] at h
      have hw2 : Wf st2.mgr := wf_parseCryptoSection hw1 hc2
      cases hc3 : parseRaidSection cfg.raids st2 with
      | error e => rw [hc3, err_bind] at h; cases h
      | ok st3 =>
        rw [hc3, ok_bind] at h
        have hw3 : Wf st3.mgr := wf_parseRaidSection hw2 hc3
        cases hc4 : parseVGSection cfg.volumeGroups st3 with
        | error e => rw [hc4, err_bind] at h; cases h
        | ok st4 =>
          rw [hc4, ok_bind] at h
          have hw4 : Wf st4.mgr := wf_parseVGSection hw3 hc4
          unfold validateState at h
          cases hv : st4.mgr.getUnitByMountPoint "/" with
          | none => rw [hv] at h; cases h
          | some u =>
            rw [hv] at h
            simp only [Except.ok.injEq] at h
            subst h
            have hmem : ∃ u2 ∈ st4.mgr.storageUnits,
                u2.mountPoint = some "/" := by
              unfold StorageManager.getUnitByMountPoint at hv
              cases hf : st4.mgr.mountPoints.find?
                  (fun p => p.1 == "/") with
              | none => rw [hf] at hv; cases hv
              | some pr =>
                have hprmem := List.mem_of_find?_eq_some hf
                have hpr1 : pr.1 = "/" := by
                  have := List.find?_some hf
                  simpa using this
                unfold StorageManager.mountPoints at hprmem
                rw [List.mem_filterMap] at hprmem
                obtain ⟨u2, hu2, hfn⟩ := hprmem
                refine ⟨u2, hu2, ?_⟩
                cases hmp2 : u2.mountPoint with
                | none =>
                  rw [hmp2] at hfn
                  simp only at hfn
                  cases hfn
                | some mp2 =>
                  rw [hmp2] at hfn
                  simp only at hfn
                  by_cases hemp : mp2 = ""
                  · rw [if_pos hemp] at hfn; cases hfn
                  · rw [if_neg hemp] at hfn
                    simp only [Option.some.injEq] at hfn
                    have hm2 : mp2 = pr.1 := by rw [← hfn]
                    rw [hm2, hpr1]
            have hle := List.nodup_iff_count_le_one.mp hw4.2 "/"
            have hpos : 0 < (graphMountPoints st4.mgr).count "/" :=
              List.count_pos_iff.mpr (mem_graphMountPoints.mpr hmem)
            have hone : (graphMountPoints st4.mgr).count "/" = 1 :=
              Nat.le_antisymm hle hpos
            unfold graphMountPoints at hone
            rw [count_root_filterMap] at hone
            exact hone

/-- A minimal valid configuration and its parse result. -/
def cfgC6ok : StorageCfg :=
  ⟨[⟨"d", [⟨"root", 0, some .ext4, [], some "/", [], none, "U1"⟩]⟩],
   none, none, none⟩

def stC6ok : ParseState :=
  ⟨[("root", mkPartUnit .partition
      ⟨"root", 0, some .ext4, [], some "/", [], none, "U1"⟩)],
   ⟨[⟨"__cryptsetup__", .cryptsetup, []⟩,
     ⟨"d", .disk, [mkPartUnit .partition
       ⟨"root", 0, some .ext4, [], some "/", [], none, "U1"⟩]⟩]⟩⟩

/-- Witness for C6. -/
theorem exactly_one_root_mount_witness :
    storageInstallerParse cfgC6ok = .ok stC6ok ∧
    (stC6ok.mgr.storageUnits.filter
      (fun u => u.mountPoint == some "/")).length = 1 := by
  have hp : storageInstallerParse cfgC6ok = .ok stC6ok := rfl
  exact ⟨hp, exactly_one_root_mount.1 cfgC6ok stC6ok hp⟩

end Alpaquero
